import Mathlib

/-!
Verification development for the DynAbs scenario-based abstraction code.

The development shallowly embeds, over exact rational arithmetic:
  - the numeric primitives of core/commons.py (floor_decimal, numpy rounding);
  - the two probability-interval computations of core/compute_probabilities.py
    (computeScenarioBounds_sparse and computeScenarioBounds_error);
  - the greedy sample-clustering loop and the PRISM result re-import of
    core/scenarioBasedAbstraction.py, and the zero-enabled-actions check of
    Abstraction.define_actions.

Machine floats are modelled as rationals with exact decimal rounding
semantics (ties to even, as numpy rounds); binary-representation error of the
actual float computation is outside the model.
-/

namespace DynAbs

/-- Round a rational to the nearest integer, ties to even: exact-arithmetic
semantics of numpy rounding of a scalar to an integer. -/
def rhe (q : ℚ) : ℤ :=
  if q - ⌊q⌋ < 1/2 then ⌊q⌋
  else if 1/2 < q - ⌊q⌋ then ⌊q⌋ + 1
  else if 2 ∣ ⌊q⌋ then ⌊q⌋ else ⌊q⌋ + 1

/-- np.round(q, p): round at p decimal digits, ties to even. -/
def np_round (q : ℚ) (p : ℕ) : ℚ := (rhe (q * 10 ^ p) : ℚ) / 10 ^ p

/-- floor_decimal from core/commons.py: np.round(a - 0.5 * 10 ** (-precision), precision). -/
def floor_decimal (a : ℚ) (precision : ℕ) : ℚ :=
  np_round (a - 1/2 * (1 / 10 ^ precision)) precision

/-- Minimum nonzero probability used by the probability engine (1e-4 in the source). -/
def Pmin : ℚ := 1/10000

/-- Option-valued map: the embedding of a loop whose body may fail
(a failing iteration aborts the whole computation, like a Python exception). -/
def mapO (f : α → Option β) : List α → Option (List β)
  | [] => some []
  | a :: as =>
    match f a, mapO f as with
    | some b, some bs => some (b :: bs)
    | _, _ => none

/-- Indexing into the scenario table trans['memory'] (a dense (N+1) x 2 array).
A negative or too-large index makes the source fail (numpy IndexError for
indices past either end; the negative-wrap convention is never reached, see the
C10 theorem), embedded as none. -/
def memAt (memory : List (ℚ × ℚ)) (k : ℤ) : Option (ℚ × ℚ) :=
  if 0 ≤ k then memory.get? k.toNat else none

/-! Exact mode: computeScenarioBounds_sparse (core/compute_probabilities.py).

The per-sample region resolution (computeRegionCenters composed with the
partition c_tuple lookup) lives in core/define_partition.py, which is not part
of src/. Modelled from the spec: "each sample is mapped to exactly one
successor region (or the absorbing state) via the Partition Indexer" - each
sample is abstracted to an optional region index. -/

/-- Input of computeScenarioBounds_sparse. assign is the per-sample optional
region index (none = the sample's center tuple is in no region). -/
structure SparseInput where
  Nsamples : ℕ
  memory : List (ℚ × ℚ)
  assign : List (Option ℕ)

/-- The multiset of samples that landed in some region. -/
def hits (assign : List (Option ℕ)) : List ℕ := assign.filterMap id

/-- Keys of a Python dict in insertion order: deduplication keeping first occurrences. -/
def firstDedup (l : List ℕ) : List ℕ :=
  l.foldl (fun acc a => if a ∈ acc then acc else acc ++ [a]) []

/-- Number of samples counted for region r (the counts dict of the source). -/
def counts (assign : List (Option ℕ)) (r : ℕ) : ℕ := (hits assign).count r

/-- Successor regions in the order the counts dict enumerates them. -/
def sparse_regs (inp : SparseInput) : List ℕ := firstDedup (hits inp.assign)

/-- Number of samples landing in no region (the absorbing state). -/
def absorbedCount (assign : List (Option ℕ)) : ℕ := assign.count none

/-- k = int(Nsamples - sum(counts.values())), the absorbed-sample count of the source. -/
def sparse_k (inp : SparseInput) : ℤ :=
  (inp.Nsamples : ℤ) - ((sparse_regs inp).map (fun r => (counts inp.assign r : ℤ))).sum

/-- One row of the per-region loop of computeScenarioBounds_sparse. -/
structure SRow where
  region : ℕ
  low : ℚ
  upp : ℚ
  approx : ℚ
deriving DecidableEq

/-- Body of the loop over counts.items() in computeScenarioBounds_sparse:
k = Nsamples - count; probability_low = 0 if k > Nsamples else memory[k][0];
probability_upp = memory[k][1]; point estimate count / Nsamples. -/
def sparse_row (inp : SparseInput) (r : ℕ) : Option SRow :=
  match (if (inp.Nsamples : ℤ) < (inp.Nsamples : ℤ) - (counts inp.assign r : ℤ)
         then some (0:ℚ)
         else (memAt inp.memory ((inp.Nsamples : ℤ) - (counts inp.assign r : ℤ))).map Prod.fst),
        (memAt inp.memory ((inp.Nsamples : ℤ) - (counts inp.assign r : ℤ))).map Prod.snd with
  | some low, some upp =>
      some ⟨r, low, upp, (counts inp.assign r : ℚ) / (inp.Nsamples : ℚ)⟩
  | _, _ => none

/-- Output of computeScenarioBounds_sparse: the raw probability vectors, the
deadlock bounds, and the reported (floored and clamped) interval payloads that
the source formats into strings. -/
structure SparseOut where
  successor_idxs : List ℕ
  probability_low : List ℚ
  probability_upp : List ℚ
  probability_approx : List ℚ
  deadlock_low : ℚ
  deadlock_upp : ℚ
  probs_lb : List ℚ
  probs_ub : List ℚ
  interval_lb : List ℚ
  interval_ub : List ℚ
  deadlock_interval_lb : ℚ
  deadlock_interval_ub : ℚ
  approx_round : List ℚ
  deadlock_approx : ℚ
deriving DecidableEq

/-- Packaging of the outputs of computeScenarioBounds_sparse from the
deadlock bounds and the per-region rows. -/
def sparse_out (deadlock_low deadlock_upp : ℚ) (rows : List SRow) : SparseOut :=
  let probability_low := rows.map (·.low)
  let probability_upp := rows.map (·.upp)
  let probability_approx := rows.map (·.approx)
  let probs_lb := probability_low.map (fun x => floor_decimal x 5)
  let probs_ub := probability_upp.map (fun x => floor_decimal x 5)
  let deadlock_lb := floor_decimal deadlock_low 5
  let deadlock_ub := floor_decimal deadlock_upp 5
  let approx_round := probability_approx.map (fun x => np_round x 5)
  { successor_idxs := rows.map (·.region)
    probability_low := probability_low
    probability_upp := probability_upp
    probability_approx := probability_approx
    deadlock_low := deadlock_low
    deadlock_upp := deadlock_upp
    probs_lb := probs_lb
    probs_ub := probs_ub
    interval_lb := probs_lb.map (fun lb => floor_decimal (max Pmin lb) 5)
    interval_ub := probs_ub.map (fun ub => floor_decimal (min 1 ub) 5)
    deadlock_interval_lb := floor_decimal (max Pmin deadlock_lb) 5
    deadlock_interval_ub := floor_decimal (min 1 deadlock_ub) 5
    approx_round := approx_round
    deadlock_approx := np_round (1 - approx_round.sum) 5 }

/-- computeScenarioBounds_sparse (core/compute_probabilities.py, lines 27-141). -/
def computeScenarioBounds_sparse (inp : SparseInput) : Option SparseOut :=
  match memAt inp.memory (sparse_k inp),
        (if (inp.Nsamples : ℤ) < sparse_k inp then some (1 : ℚ)
         else (memAt inp.memory (sparse_k inp)).map (fun e => 1 - e.1)),
        mapO (sparse_row inp) (sparse_regs inp) with
  | some mk, some deadlock_upp, some rows => some (sparse_out (1 - mk.2) deadlock_upp rows)
  | _, _, _ => none

/-! Greedy sample clustering (scenarioBasedAbstraction._computeProbabilityBounds,
core/scenarioBasedAbstraction.py lines 712-752). -/

/-- Squared Euclidean distance between two points (componentwise over zip). -/
def distSq (a b : List ℚ) : ℚ := ((a.zip b).map (fun p => (p.1 - p.2) ^ 2)).sum

/-- distances < max_radius of the source, with the Euclidean norm compared in
squared form: for a nonnegative norm, norm < r iff 0 < r and normSq < r ^ 2
(square roots are avoided so the test stays rational and exact). -/
def below (r : ℚ) (s x : List ℚ) : Bool := decide (0 < r) && decide (distSq s x < r ^ 2)

/-- Componentwise minimum over a nonempty list of points (np.min(..., axis=0)). -/
def pmin : List (List ℚ) → List ℚ
  | [] => []
  | x :: xs => xs.foldl (fun a b => (a.zip b).map fun p => min p.1 p.2) x

/-- Componentwise maximum over a nonempty list of points (np.max(..., axis=0)). -/
def pmax : List (List ℚ) → List ℚ
  | [] => []
  | x :: xs => xs.foldl (fun a b => (a.zip b).map fun p => max p.1 p.2) x

/-- One cluster record of clusters0: sample count, per-dimension min, per-dimension max. -/
structure Cluster where
  value : ℕ
  lb : List ℚ
  ub : List ℚ
deriving DecidableEq

/-- The while-loop of the greedy clustering: pick the first remaining sample,
collect every remaining sample within the radius into one cluster, drop them,
repeat. Fuel bounds the iteration count; with fuel = number of samples and a
positive radius the loop always finishes (each pass removes the seed). -/
def greedy (r : ℚ) : ℕ → List (List ℚ) → List Cluster
  | 0, _ => []
  | _ + 1, [] => []
  | fuel + 1, s :: rest =>
    let rem := s :: rest
    let inC := rem.filter (below r s)
    let out := rem.filter (fun x => ! below r s x)
    ⟨inC.length, pmin inC, pmax inC⟩ :: greedy r fuel out

/-- Cluster a sample list with the configured radius (args.sample_clustering). -/
def cluster_samples (r : ℚ) (samples : List (List ℚ)) : List Cluster :=
  greedy r samples.length samples

/-! Zero-enabled-actions check at the end of Abstraction.define_actions
(core/scenarioBasedAbstraction.py lines 366-369). -/

/-- Diagnostic printed by the source before terminating the process. -/
def no_actions_msg : String := "No actions enabled at all, so terminate"

/-- nr_act as computed by _composeEnabledActions: the number of actions whose
enabled_in set is nonempty, given the per-action enabled-region sets. -/
def nr_act_of (enabled_in : List (List ℕ)) : ℕ :=
  (enabled_in.filter (fun l => ! l.isEmpty)).length

/-- Tail of define_actions: if nr_act == 0 print a warning and sys.exit()
(embedded as Except.error with the warning text), else continue. -/
def check_enabled (nr_act : ℕ) : Except String Unit :=
  if nr_act = 0 then Except.error no_actions_msg else Except.ok ()

/-! Result re-import: scenarioBasedAbstraction.loadPRISMresults
(core/scenarioBasedAbstraction.py lines 526-572). -/

/-- Separator of PRISM action identifiers in the policy file. -/
def usep : String := "_"

/-- Parsing of one policy cell after fillna(-1): a missing entry becomes the
sentinel -1, a present entry s is value.split(sep)[1] read as an integer. -/
def parse_policy_cell : Option String → Option ℤ
  | none => some (-1)
  | some s => ((s.splitOn usep).get? 1).bind String.toInt?

/-- Re-imported solver results. -/
structure PrismResults where
  optimal_policy : List (List ℤ)
  optimal_reward : List ℚ
deriving DecidableEq

/-- loadPRISMresults: drop the first 3 columns of the policy table, flip it
upside down (PRISM emits the last time step first), parse cells with the -1
sentinel for missing entries; drop the first 3 rows of the value vector and,
when the declared problem type requires it, convert the avoid probability into
the safety probability by subtracting from 1. -/
def loadPRISMresults (problem_type : Bool) (policy_rows : List (List (Option String)))
    (vector_rows : List ℚ) : Option PrismResults :=
  let policy_all := policy_rows.map (List.drop 3)
  let flipped := policy_all.reverse
  match mapO (mapO parse_policy_cell) flipped with
  | some pol =>
    let rewards_k0 := vector_rows.drop 3
    some ⟨pol, if problem_type then rewards_k0.map (fun v => 1 - v) else rewards_k0⟩
  | none => none

/-! Interval mode: computeScenarioBounds_error (core/compute_probabilities.py,
lines 143-369).

The call computeRegionIdx(box corner, partition_setup) lives in
core/define_partition.py, which is not part of src/. Modelled from the spec:
the Partition Indexer resolves, per dimension, the interval of grid indices a
box falls into, reporting "independent lower/upper index vectors, clipped or
flagged out-of-range"; a cluster therefore carries the raw per-dimension index
extremes imin/imax (of lb + error.neg and ub + error.pos), and iMinOf/iMaxOf
clip them to the grid 0 .. number - 1. -/

/-- One cluster with its per-dimension raw index extremes. -/
structure ClusterIdx where
  value : ℕ
  imin : List ℤ
  imax : List ℤ
deriving DecidableEq

/-- Input of computeScenarioBounds_error. number is partition_setup['number'];
goal_idx / critical_idx are the goal / critical grid-tuple sets; R_idx is the
grid-tuple to region-index map partition['R']['idx']; epsilon is the
Hoeffding term sqrt(log(2 / confidence) / (2 Nsamples)) of the source, kept as
a parameter because it is irrational for general confidence levels. -/
structure ErrorInput where
  Nsamples : ℕ
  memory : List (ℚ × ℚ)
  epsilon : ℚ
  number : List ℤ
  goal_idx : List (List ℤ)
  critical_idx : List (List ℤ)
  R_idx : List ℤ → ℤ
  clusters : List ClusterIdx

/-- Modelled from the spec: clipped lower index vector of a cluster. -/
def iMinOf (nr : List ℤ) (c : ClusterIdx) : List ℤ :=
  (c.imin.zip nr).map (fun p => max 0 (min p.1 (p.2 - 1)))

/-- Modelled from the spec: clipped upper index vector of a cluster. -/
def iMaxOf (nr : List ℤ) (c : ClusterIdx) : List ℤ :=
  (c.imax.zip nr).map (fun p => max 0 (min p.1 (p.2 - 1)))

/-- fully_out = (imax < 0).any(axis=1) + (imin > nrPerDim - 1).any(axis=1). -/
def fully_out (nr : List ℤ) (c : ClusterIdx) : Bool :=
  c.imax.any (fun v => decide (v < 0)) || (c.imin.zip nr).any (fun p => decide (p.2 - 1 < p.1))

/-- partially_out = (imin < 0).any(axis=1) + (imax > nrPerDim - 1).any(axis=1). -/
def part_out (nr : List ℤ) (c : ClusterIdx) : Bool :=
  c.imin.any (fun v => decide (v < 0)) || (c.imax.zip nr).any (fun p => decide (p.2 - 1 < p.1))

/-- in_single_region = (imin == imax).all(axis=1) * bitwise_not(fully_out). -/
def single_reg (nr : List ℤ) (c : ClusterIdx) : Bool :=
  decide (c.imin = c.imax) && ! fully_out nr c

/-- Integer interval a .. b as a list (python range(a, b + 1)). -/
def rangeIcc (a b : ℤ) : List ℤ := (List.range (b + 1 - a).toNat).map (fun i => a + i)

/-- itertools.product(*map(range, lo, hi + 1)): all grid tuples of the box. -/
def boxTuples : List ℤ → List ℤ → List (List ℤ)
  | a :: as, b :: bs => (rangeIcc a b).flatMap (fun x => (boxTuples as bs).map (x :: ·))
  | _, _ => [[]]

/-- Grid tuples a cluster's clipped index box covers. -/
def touched (nr : List ℤ) (c : ClusterIdx) : List (List ℤ) :=
  boxTuples (iMinOf nr c) (iMaxOf nr c)

/-- State of the counting stage of computeScenarioBounds_error: the absorbing,
goal-aggregate and critical-aggregate counters and the two per-region count
arrays (embedded as functions on grid tuples). -/
structure ErrCounts where
  absorb_low : ℕ
  absorb_upp : ℕ
  goal_low : ℕ
  goal_upp : ℕ
  critical_low : ℕ
  critical_upp : ℕ
  counts_low : List ℤ → ℕ
  counts_upp : List ℤ → ℕ

/-- Add v to one cell of a count array. -/
def bump (f : List ℤ → ℕ) (key : List ℤ) (v : ℕ) : List ℤ → ℕ :=
  fun t => if t = key then f t + v else f t

/-- Add v to every cell of a box of a count array (the slice assignment
counts_upp[iMin : iMax + 1] += value). -/
def bumpBox (f : List ℤ → ℕ) (ts : List (List ℤ)) (v : ℕ) : List ℤ → ℕ :=
  fun t => if t ∈ ts then f t + v else f t

/-- Loop body over the single-region clusters (lines 223-236 of the source). -/
def singleStep (inp : ErrorInput) (s : ErrCounts) (c : ClusterIdx) : ErrCounts :=
  if c.imin ∈ inp.goal_idx then
    { s with goal_low := s.goal_low + c.value, goal_upp := s.goal_upp + c.value }
  else if c.imin ∈ inp.critical_idx then
    { s with critical_low := s.critical_low + c.value,
             critical_upp := s.critical_upp + c.value }
  else
    { s with counts_low := bump s.counts_low c.imin c.value,
             counts_upp := bump s.counts_upp c.imin c.value }

/-- Default cluster (irrelevant: only read at indices shown to be in range). -/
def defaultCluster : ClusterIdx := ⟨0, [], []⟩

/-- Certain-goal condition of a remaining cluster: its touched tuples all lie
in the goal set and the consulted partial-outside flag (of the cluster at the
same position in the full cluster list) is false. -/
def rcondCertGoal (inp : ErrorInput) (p : ℕ × ClusterIdx) : Bool :=
  (touched inp.number p.2).all (fun t => decide (t ∈ inp.goal_idx))
  && ! part_out inp.number (inp.clusters.getD p.1 defaultCluster)

/-- Certain-critical condition of a remaining cluster. -/
def rcondCertCrit (inp : ErrorInput) (p : ℕ × ClusterIdx) : Bool :=
  (touched inp.number p.2).all (fun t => decide (t ∈ inp.critical_idx))
  && ! part_out inp.number (inp.clusters.getD p.1 defaultCluster)

/-- Loop body over enumerate(c_rem) (lines 247-291 of the source). Note that
the source consults partially_out[x] where x is the position in the remaining
list, i.e. the partial-outside flag of the x-th cluster of the full cluster
list, not of the cluster being processed. -/
def remStep (inp : ErrorInput) (s : ErrCounts) (p : ℕ × ClusterIdx) : ErrCounts :=
  let s1 := { s with counts_upp := bumpBox s.counts_upp (touched inp.number p.2) p.2.value }
  if rcondCertGoal inp p then
    { s1 with goal_low := s1.goal_low + p.2.value, goal_upp := s1.goal_upp + p.2.value }
  else if rcondCertCrit inp p then
    { s1 with critical_low := s1.critical_low + p.2.value,
              critical_upp := s1.critical_upp + p.2.value }
  else
    let s2 := if (touched inp.number p.2).any (fun t => decide (t ∈ inp.goal_idx))
              then { s1 with goal_upp := s1.goal_upp + p.2.value } else s1
    if (touched inp.number p.2).any (fun t => decide (t ∈ inp.critical_idx))
    then { s2 with critical_upp := s2.critical_upp + p.2.value } else s2

/-- Clusters neither resolved to a single region nor fully outside, in order,
paired with their position (enumerate(c_rem)). -/
def remaining (inp : ErrorInput) : List (ℕ × ClusterIdx) :=
  (inp.clusters.filter (fun c => ! single_reg inp.number c && ! fully_out inp.number c)).enum

/-- Initial count state: absorbing counts as masked sums (lines 205-217),
all other counters zero. -/
def errInit (inp : ErrorInput) : ErrCounts :=
  { absorb_low := ((inp.clusters.filter (fully_out inp.number)).map (·.value)).sum
    absorb_upp := ((inp.clusters.filter (part_out inp.number)).map (·.value)).sum
    goal_low := 0, goal_upp := 0, critical_low := 0, critical_upp := 0
    counts_low := fun _ => 0, counts_upp := fun _ => 0 }

/-- The whole counting stage of computeScenarioBounds_error (lines 190-291):
absorbing counts as masked sums, then the single-region pass, then the
remaining pass. -/
def errorCounts (inp : ErrorInput) : ErrCounts :=
  (remaining inp).foldl (remStep inp)
    ((inp.clusters.filter (single_reg inp.number)).foldl (singleStep inp) (errInit inp))

/-- One row of the counts array built at lines 296-307: region index (or the
aggregate sentinels -2 critical / -1 goal), lower count, upper count. -/
structure CRow where
  idx : ℤ
  clow : ℕ
  cupp : ℕ
deriving DecidableEq

/-- All grid tuples of the partition, row-major (np.ndenumerate order). -/
def allTuples (nr : List ℤ) : List (List ℤ) :=
  boxTuples (nr.map (fun _ => 0)) (nr.map (fun n => n - 1))

/-- counts = np.array(counts_header + counts_nonzero): the aggregate header
rows (when goal / critical regions exist) followed by every region with a
positive upper count that is neither a goal nor a critical region. -/
def counts_rows (inp : ErrorInput) : List CRow :=
  let s := errorCounts inp
  let nonzero := (allTuples inp.number).filterMap (fun t =>
    if 0 < s.counts_upp t ∧ t ∉ inp.goal_idx ∧ t ∉ inp.critical_idx then
      some ⟨inp.R_idx t, s.counts_low t, s.counts_upp t⟩ else none)
  let header :=
    (if 0 < inp.critical_idx.length then [(⟨-2, s.critical_low, s.critical_upp⟩ : CRow)] else [])
    ++ (if 0 < inp.goal_idx.length then [(⟨-1, s.goal_low, s.goal_upp⟩ : CRow)] else [])
  header ++ nonzero

/-- Output of computeScenarioBounds_error. -/
structure ErrOut where
  successor_idxs : List ℤ
  probability_low : List ℚ
  probability_upp : List ℚ
  probability_approx : List ℚ
  deadlock_low : ℚ
  deadlock_upp : ℚ
  probs_lb : List ℚ
  probs_ub : List ℚ
  deadlock_lb : ℚ
  deadlock_ub : ℚ
  approx_round : List ℚ
  deadlock_approx : ℚ
deriving DecidableEq

/-- computeScenarioBounds_error, probability stage and reporting
(lines 309-367): table lookups for the lower bounds and the deadlock upper
bound, the Hoeffding term for the successor upper bounds and the deadlock
lower bound, then flooring and clamping at 5 decimals. -/
def error_out (inp : ErrorInput) (deadlock_upp : ℚ) (probability_low : List ℚ) : ErrOut :=
  let N := inp.Nsamples
  let s := errorCounts inp
  let rows := counts_rows inp
  let deadlock_low := max 0 ((s.absorb_low : ℚ) / (N : ℚ) - inp.epsilon)
  let probability_upp := rows.map (fun row => min 1 ((row.cupp : ℚ) / (N : ℚ) + inp.epsilon))
  let probability_approx := rows.map (fun row => (((row.clow : ℚ) + (row.cupp : ℚ)) / 2) / (N : ℚ))
  let approx_round := probability_approx.map (fun x => np_round x 5)
  { successor_idxs := rows.map (·.idx)
    probability_low := probability_low
    probability_upp := probability_upp
    probability_approx := probability_approx
    deadlock_low := deadlock_low
    deadlock_upp := deadlock_upp
    probs_lb := probability_low.map (fun x => max Pmin (floor_decimal x 5))
    probs_ub := probability_upp.map (fun x => min 1 (floor_decimal x 5))
    deadlock_lb := max Pmin (floor_decimal deadlock_low 5)
    deadlock_ub := min 1 (floor_decimal deadlock_upp 5)
    approx_round := approx_round
    deadlock_approx := np_round (1 - approx_round.sum) 5 }

def computeScenarioBounds_error (inp : ErrorInput) : Option ErrOut :=
  match memAt inp.memory ((errorCounts inp).absorb_upp : ℤ),
        mapO (fun row =>
          (memAt inp.memory
            (min ((inp.Nsamples : ℤ) - (row.clow : ℤ)) (inp.Nsamples : ℤ))).map Prod.fst)
          (counts_rows inp) with
  | some dupE, some probability_low => some (error_out inp (1 - dupE.1) probability_low)
  | _, _ => none

/-- Contribution of a single-region cluster to the goal-aggregate counts. -/
def sGoal (inp : ErrorInput) (c : ClusterIdx) : ℕ :=
  if c.imin ∈ inp.goal_idx then c.value else 0

/-- Contribution of a single-region cluster to the critical-aggregate counts. -/
def sCrit (inp : ErrorInput) (c : ClusterIdx) : ℕ :=
  if c.imin ∉ inp.goal_idx ∧ c.imin ∈ inp.critical_idx then c.value else 0

/-- Contribution of a single-region cluster to the count arrays at tuple t. -/
def sArr (inp : ErrorInput) (t : List ℤ) (c : ClusterIdx) : ℕ :=
  if t = c.imin ∧ c.imin ∉ inp.goal_idx ∧ c.imin ∉ inp.critical_idx then c.value else 0

/-- Certain contribution of a remaining cluster to both goal-aggregate counts. -/
def rCertGoal (inp : ErrorInput) (p : ℕ × ClusterIdx) : ℕ :=
  if rcondCertGoal inp p then p.2.value else 0

/-- Certain contribution of a remaining cluster to both critical-aggregate counts. -/
def rCertCrit (inp : ErrorInput) (p : ℕ × ClusterIdx) : ℕ :=
  if ! rcondCertGoal inp p && rcondCertCrit inp p then p.2.value else 0

/-- Possible contribution of a remaining cluster to the goal upper count only. -/
def rPossGoal (inp : ErrorInput) (p : ℕ × ClusterIdx) : ℕ :=
  if ! rcondCertGoal inp p && ! rcondCertCrit inp p
     && (touched inp.number p.2).any (fun t => decide (t ∈ inp.goal_idx))
  then p.2.value else 0

/-- Possible contribution of a remaining cluster to the critical upper count only. -/
def rPossCrit (inp : ErrorInput) (p : ℕ × ClusterIdx) : ℕ :=
  if ! rcondCertGoal inp p && ! rcondCertCrit inp p
     && (touched inp.number p.2).any (fun t => decide (t ∈ inp.critical_idx))
  then p.2.value else 0

/-- Contribution of a remaining cluster to the upper count array at tuple t. -/
def rBox (inp : ErrorInput) (t : List ℤ) (p : ℕ × ClusterIdx) : ℕ :=
  if t ∈ touched inp.number p.2 then p.2.value else 0

/-! Formalizations of claim-stated quantities and concrete example inputs. -/

/-- The goal-aggregate lower count as claim C1 predicts it: only clusters that
resolve to exactly one region (under both index extremes) whose region is a
goal region contribute to it; remaining clusters contribute to upper-bound
counts only. -/
def C1_claim_goal_low (inp : ErrorInput) : ℕ :=
  ((inp.clusters.filter
      (fun c => single_reg inp.number c && decide (c.imin ∈ inp.goal_idx))).map (·.value)).sum

/-- The successor upper bound as claim C3 states it, with the sample-count
safety bound read as the sample count Nsamples itself (the only sample-count
bound in scope: the scenario table has exactly Nsamples + 1 rows): the
Hoeffding term replaces the table lookup at key Nsamples - count only when the
count exceeds Nsamples, otherwise the table entry is used. -/
def C3_claim_upp (inp : ErrorInput) (row : CRow) : Option ℚ :=
  if (inp.Nsamples : ℤ) < (row.cupp : ℤ) then
    some (min 1 ((row.cupp : ℚ) / (inp.Nsamples : ℚ) + inp.epsilon))
  else (memAt inp.memory ((inp.Nsamples : ℤ) - (row.cupp : ℤ))).map Prod.snd

/-- Counterexample input for C1: a 1-dimensional partition with two regions,
both goal regions, and one cluster of one sample whose index box spans both
regions while staying inside the partition. -/
def exC1 : ErrorInput :=
  { Nsamples := 4, memory := [(0, 1), (0, 1), (0, 1), (0, 1), (0, 1)], epsilon := 0,
    number := [2], goal_idx := [[0], [1]], critical_idx := [],
    R_idx := fun _ => 0, clusters := [⟨1, [0], [1]⟩] }

/-- Counterexample input for C3: one cluster of one sample resolved to a single
ordinary region, 4 samples, epsilon = 1/2 (the source value for
confidence = 2 / exp(2)), and a table whose entry at key 3 is (1/10, 9/10). -/
def exC3 : ErrorInput :=
  { Nsamples := 4, memory := [(0, 1), (0, 1), (0, 1), (1/10, 9/10), (0, 1)], epsilon := 1/2,
    number := [2], goal_idx := [], critical_idx := [],
    R_idx := fun t => t.headD 0, clusters := [⟨1, [0], [0]⟩] }

/-- Output of computeScenarioBounds_error on the C3 counterexample input. -/
def exC3_out : ErrOut := error_out exC3 (1 - (0 : ℚ)) [(1/10 : ℚ)]

/-- Failing input for C4: 6 samples landing in 6 distinct regions, one each.
Every point estimate 1/6 rounds up to 0.16667, so the rounded estimates sum to
1.00002 and the reported deadlock point estimate is negative. -/
def exC4 : SparseInput :=
  { Nsamples := 6,
    memory := [(0, 1), (0, 1), (0, 1), (0, 1), (0, 1), (1/2, 1), (0, 1)],
    assign := [some 0, some 1, some 2, some 3, some 4, some 5] }

/-- Counterexample input for C5: a well-formed table (entries in [0, 1] with
lower <= upper) whose upper entry at the used key is below the minimum nonzero
probability 1e-4, so the clamped lower bound exceeds the floored upper bound. -/
def exC5 : SparseInput :=
  { Nsamples := 2,
    memory := [(0, 0), (0, 1/200000), (0, 1)],
    assign := [some 0, none] }

/-- Witness input for C5 (sparse side): a sane table with all upper entries
at least Pmin and all lower entries at most 1 - Pmin. -/
def exC5w : SparseInput :=
  { Nsamples := 2, memory := [(0, 1), (1/10, 1/2), (0, 1)], assign := [some 0, none] }

/-- Output of computeScenarioBounds_sparse on the C5 witness input. -/
def exC5w_out : SparseOut :=
  sparse_out (1 - (1/2 : ℚ)) (1 - (1/10 : ℚ))
    [⟨0, 1/10, 1/2, ((1 : ℕ) : ℚ) / ((2 : ℕ) : ℚ)⟩]

/-- Counterexample input for C7: three 1-dimensional samples within radius 1 of
the seed 0, spanning a bounding box of side 9/5 > 1. -/
def exC7 : List (List ℚ) := [[0], [9/10], [-(9/10)]]

/-- Witness input for C6: two 1-dimensional samples. -/
def exC6w : List (List ℚ) := [[0], [3]]

/-- Witness input for C9: one policy row of four cells, all missing (NaN). -/
def exC9_policy : List (List (Option String)) := [[none, none, none, none]]

/-- Witness vector input for C9: three skipped rows then one value. -/
def exC9_vector : List ℚ := [5, 6, 7, 1/4]

/-- Results of loadPRISMresults on the C9 witness inputs. -/
def exC9_res : PrismResults := ⟨[[-1]], [1 - (1/4 : ℚ)]⟩

/-- Witness input for C10: 2 samples, one in region 0 and one absorbed. -/
def exC10 : SparseInput :=
  { Nsamples := 2, memory := [(0, 1), (1/10, 1/2), (0, 1)], assign := [some 0, none] }

/-- Witness input for C2: same shape as the C10 witness input. -/
def exC2w : SparseInput :=
  { Nsamples := 2, memory := [(0, 1), (1/10, 1/2), (0, 1)], assign := [some 0, none] }

/-- Output of computeScenarioBounds_sparse on the C2 witness input. -/
def exC2w_out : SparseOut :=
  sparse_out (1 - (1/2 : ℚ)) (1 - (1/10 : ℚ))
    [⟨0, 1/10, 1/2, ((1 : ℕ) : ℚ) / ((2 : ℕ) : ℚ)⟩]

/-- The six identical rows of the C4 failing run. -/
def exC4_row (i : ℕ) : SRow := ⟨i, 1/2, 1, ((1 : ℕ) : ℚ) / ((6 : ℕ) : ℚ)⟩

/-- Output of computeScenarioBounds_sparse on the C4 failing input. -/
def exC4_out : SparseOut :=
  sparse_out (1 - (1 : ℚ)) (1 - (0 : ℚ)) ([0, 1, 2, 3, 4, 5].map exC4_row)

/-- Output of computeScenarioBounds_sparse on the C5 counterexample input. -/
def exC5_out : SparseOut :=
  sparse_out (1 - (1/200000 : ℚ)) (1 - (0 : ℚ))
    [⟨0, 0, 1/200000, ((1 : ℕ) : ℚ) / ((2 : ℕ) : ℚ)⟩]

/-! Theorems. First, facts about the rounding primitives. -/

theorem rhe_cases (q : ℚ) : rhe q = ⌊q⌋ ∨ rhe q = ⌊q⌋ + 1 := by
  unfold rhe; split_ifs <;> simp

theorem le_rhe (q : ℚ) : q - 1/2 ≤ (rhe q : ℚ) := by
  have h1 := Int.floor_le q
  have h2 := Int.lt_floor_add_one q
  unfold rhe
  split_ifs <;> push_cast <;> linarith

theorem rhe_le (q : ℚ) : (rhe q : ℚ) ≤ q + 1/2 := by
  have h1 := Int.floor_le q
  have h2 := Int.lt_floor_add_one q
  unfold rhe
  split_ifs <;> push_cast <;> linarith

theorem rhe_mono {a b : ℚ} (h : a ≤ b) : rhe a ≤ rhe b := by
  have hf := Int.floor_le_floor h
  rcases eq_or_lt_of_le hf with hf' | hf'
  · unfold rhe
    rw [← hf']
    split_ifs <;> first | omega | (exfalso; linarith)
  · rcases rhe_cases a with ha | ha <;> rcases rhe_cases b with hb | hb <;> omega

theorem np_round_le (q : ℚ) (p : ℕ) : np_round q p ≤ q + 1/2 / 10 ^ p := by
  unfold np_round
  rw [div_le_iff₀ (by positivity)]
  have h := rhe_le (q * 10 ^ p)
  have e : (q + 1/2 / 10 ^ p) * 10 ^ p = q * 10 ^ p + 1/2 := by
    field_simp
    ring
  linarith

theorem le_np_round (q : ℚ) (p : ℕ) : q - 1/2 / 10 ^ p ≤ np_round q p := by
  unfold np_round
  rw [le_div_iff₀ (by positivity)]
  have h := le_rhe (q * 10 ^ p)
  have e : (q - 1/2 / 10 ^ p) * 10 ^ p = q * 10 ^ p - 1/2 := by
    field_simp
    ring
  linarith

theorem np_round_mono {a b : ℚ} (h : a ≤ b) (p : ℕ) : np_round a p ≤ np_round b p := by
  unfold np_round
  gcongr
  exact_mod_cast rhe_mono (mul_le_mul_of_nonneg_right h (by positivity))

theorem floor_decimal_le (a : ℚ) (p : ℕ) : floor_decimal a p ≤ a := by
  unfold floor_decimal
  have h := np_round_le (a - 1/2 * (1 / 10 ^ p)) p
  have e : (1:ℚ)/2 * (1 / 10 ^ p) = 1/2 / 10 ^ p := by ring
  linarith

theorem floor_decimal_ge (a : ℚ) (p : ℕ) : a - 1 / 10 ^ p ≤ floor_decimal a p := by
  unfold floor_decimal
  have h := le_np_round (a - 1/2 * (1 / 10 ^ p)) p
  have e : (1:ℚ)/2 * (1 / 10 ^ p) + 1/2 / 10 ^ p = 1 / 10 ^ p := by ring
  linarith

theorem floor_decimal_mono {a b : ℚ} (h : a ≤ b) (p : ℕ) :
    floor_decimal a p ≤ floor_decimal b p :=
  np_round_mono (by linarith) p

theorem rhe_eq_low {q : ℚ} {n : ℤ} (h1 : (n : ℚ) ≤ q) (h2 : q < (n : ℚ) + 1/2) :
    rhe q = n := by
  have hf : ⌊q⌋ = n := by
    rw [Int.floor_eq_iff]
    refine ⟨h1, ?_⟩
    linarith
  unfold rhe
  rw [hf]
  rw [if_pos (by linarith)]

theorem rhe_eq_high {q : ℚ} {n : ℤ} (h1 : (n : ℚ) + 1/2 < q) (h2 : q < (n : ℚ) + 1) :
    rhe q = n + 1 := by
  have hf : ⌊q⌋ = n := by
    rw [Int.floor_eq_iff]
    refine ⟨by linarith, ?_⟩
    linarith
  unfold rhe
  rw [hf]
  rw [if_neg (by linarith), if_pos (by linarith)]

theorem rhe_eq_tie_even {q : ℚ} {n : ℤ} (h : q = (n : ℚ) + 1/2) (he : 2 ∣ n) :
    rhe q = n := by
  have hf : ⌊q⌋ = n := by
    rw [Int.floor_eq_iff]
    refine ⟨by linarith, ?_⟩
    linarith
  unfold rhe
  rw [hf]
  rw [if_neg (by linarith), if_neg (by linarith), if_pos he]

theorem rhe_eq_tie_odd {q : ℚ} {n : ℤ} (h : q = (n : ℚ) + 1/2) (he : ¬ 2 ∣ n) :
    rhe q = n + 1 := by
  have hf : ⌊q⌋ = n := by
    rw [Int.floor_eq_iff]
    refine ⟨by linarith, ?_⟩
    linarith
  unfold rhe
  rw [hf]
  rw [if_neg (by linarith), if_neg (by linarith), if_neg he]

theorem floor_decimal_pmin : floor_decimal Pmin 5 = Pmin := by
  unfold floor_decimal np_round Pmin
  have e : ((1/10000 - 1/2 * (1/10^5)) * 10^5 : ℚ) = ((9 : ℤ) : ℚ) + 1/2 := by norm_num
  rw [e, rhe_eq_tie_odd rfl (by decide)]
  norm_num

theorem floor_decimal_one : floor_decimal 1 5 = 1 := by
  unfold floor_decimal np_round
  have e : (((1:ℚ) - 1/2 * (1/10^5)) * 10^5 : ℚ) = ((99999 : ℤ) : ℚ) + 1/2 := by norm_num
  rw [e, rhe_eq_tie_odd rfl (by decide)]
  norm_num

theorem floor5_ge_pmin {x : ℚ} (h : Pmin ≤ x) : Pmin ≤ floor_decimal x 5 :=
  floor_decimal_pmin ▸ floor_decimal_mono h 5

/-! Facts about mapO and firstDedup. -/

theorem mapO_some {f : α → Option β} :
    ∀ {l : List α} {res : List β}, mapO f l = some res →
      res.length = l.length ∧ ∀ i a, l.get? i = some a → res.get? i = f a := by
  intro l
  induction l with
  | nil =>
    intro res h
    simp only [mapO, Option.some.injEq] at h
    subst h
    refine ⟨rfl, ?_⟩
    intro i a h
    simp at h
  | cons a as ih =>
    intro res h
    cases hfa : f a with
    | none => simp [mapO, hfa] at h
    | some b =>
      cases hbs : mapO f as with
      | none => simp [mapO, hfa, hbs] at h
      | some bs =>
        simp only [mapO, hfa, hbs, Option.some.injEq] at h
        subst h
        obtain ⟨hlen, hget⟩ := ih hbs
        refine ⟨by simp [hlen], ?_⟩
        intro i x hx
        cases i with
        | zero =>
          simp only [List.get?] at hx
          injection hx with hx
          subst hx
          simp [hfa]
        | succ n =>
          simp only [List.get?] at hx ⊢
          exact hget n x hx

theorem firstDedup_mem_aux (l : List ℕ) :
    ∀ (acc : List ℕ) (a : ℕ),
      (a ∈ l.foldl (fun acc a => if a ∈ acc then acc else acc ++ [a]) acc ↔ a ∈ acc ∨ a ∈ l) := by
  induction l with
  | nil => simp
  | cons x xs ih =>
    intro acc a
    simp only [List.foldl_cons]
    by_cases hx : x ∈ acc
    · simp only [if_pos hx]
      rw [ih acc a]
      constructor
      · rintro (h | h)
        · exact Or.inl h
        · exact Or.inr (List.mem_cons_of_mem _ h)
      · rintro (h | h)
        · exact Or.inl h
        · rcases List.mem_cons.1 h with rfl | h
          · exact Or.inl hx
          · exact Or.inr h
    · simp only [if_neg hx]
      rw [ih (acc ++ [x]) a]
      simp only [List.mem_append, List.mem_cons, List.mem_singleton]
      tauto

theorem firstDedup_mem (l : List ℕ) (a : ℕ) : a ∈ firstDedup l ↔ a ∈ l := by
  unfold firstDedup
  rw [firstDedup_mem_aux]
  simp

theorem firstDedup_nodup_aux (l : List ℕ) :
    ∀ (acc : List ℕ), acc.Nodup →
      (l.foldl (fun acc a => if a ∈ acc then acc else acc ++ [a]) acc).Nodup := by
  induction l with
  | nil => intro acc h; simpa using h
  | cons x xs ih =>
    intro acc hacc
    simp only [List.foldl_cons]
    by_cases hx : x ∈ acc
    · rw [if_pos hx]; exact ih acc hacc
    · rw [if_neg hx]
      refine ih _ ?_
      simp [List.nodup_append, hacc, hx]

theorem firstDedup_nodup (l : List ℕ) : (firstDedup l).Nodup :=
  firstDedup_nodup_aux l [] List.nodup_nil

theorem nodup_sum_map (f : ℕ → ℕ) :
    ∀ (d : List ℕ), d.Nodup → (d.map f).sum = ∑ a in d.toFinset, f a := by
  intro d
  induction d with
  | nil => simp
  | cons a t ih =>
    intro hd
    obtain ⟨ha, ht⟩ := List.nodup_cons.1 hd
    simp only [List.map_cons, List.sum_cons, List.toFinset_cons]
    rw [Finset.sum_insert (by simpa using ha), ih ht]

theorem sum_counts_firstDedup (l : List ℕ) :
    ((firstDedup l).map (fun r => l.count r)).sum = l.length := by
  rw [nodup_sum_map _ _ (firstDedup_nodup l)]
  have hfin : (firstDedup l).toFinset = l.toFinset := by
    ext a
    simp [List.mem_toFinset, firstDedup_mem]
  rw [hfin]
  simp

/-! Sparse-mode supporting lemmas. -/

theorem hits_length_add_absorbed (assign : List (Option ℕ)) :
    (hits assign).length + absorbedCount assign = assign.length := by
  unfold hits absorbedCount
  induction assign with
  | nil => simp
  | cons o t ih =>
    cases o with
    | none =>
      simp only [List.filterMap_cons, id, List.count_cons, List.length_cons] at *
      simp at *
      omega
    | some a =>
      simp only [List.filterMap_cons, id, List.count_cons, List.length_cons] at *
      simp at *
      omega

theorem sum_counts_sparse (inp : SparseInput) :
    (((sparse_regs inp).map (fun r => (counts inp.assign r : ℤ))).sum)
      = ((hits inp.assign).length : ℤ) := by
  have cast_sum : ∀ (l : List ℕ) (f : ℕ → ℕ),
      ((l.map (fun r => ((f r : ℕ) : ℤ))).sum) = (((l.map f).sum : ℕ) : ℤ) := by
    intro l f
    induction l with
    | nil => simp
    | cons a t ih => simp [ih]
  rw [cast_sum]
  have := sum_counts_firstDedup (hits inp.assign)
  unfold sparse_regs counts
  exact_mod_cast this

theorem sparse_k_eq (inp : SparseInput) (hlen : inp.assign.length = inp.Nsamples) :
    sparse_k inp = (absorbedCount inp.assign : ℤ) := by
  unfold sparse_k
  rw [sum_counts_sparse]
  have := hits_length_add_absorbed inp.assign
  omega

theorem counts_le_Nsamples (inp : SparseInput) (hlen : inp.assign.length = inp.Nsamples)
    (r : ℕ) : counts inp.assign r ≤ inp.Nsamples := by
  have h1 : counts inp.assign r ≤ (hits inp.assign).length := List.count_le_length _ _
  have h2 := hits_length_add_absorbed inp.assign
  omega

theorem memAt_isSome {memory : List (ℚ × ℚ)} {k : ℤ} (h0 : 0 ≤ k)
    (hk : k.toNat < memory.length) : (memAt memory k).isSome := by
  unfold memAt
  rw [if_pos h0, Option.isSome_iff_ne_none]
  intro hnone
  rw [List.get?_eq_none] at hnone
  omega

/-- Claim C10: in computeScenarioBounds_sparse, under the precondition that the
samples array has exactly Nsamples rows, the absorbed-sample count
k = Nsamples - sum(counts) and the per-region discard count k = Nsamples - count
always satisfy 0 <= k <= Nsamples, so both k > Nsamples guard branches are
unreachable and every scenario-table access memory[k] is within the table's
index range 0 .. Nsamples. -/
theorem C10_sparse_guards_unreachable (inp : SparseInput)
    (hlen : inp.assign.length = inp.Nsamples) :
    (0 ≤ sparse_k inp ∧ sparse_k inp ≤ (inp.Nsamples : ℤ)
      ∧ ¬ ((inp.Nsamples : ℤ) < sparse_k inp))
    ∧ (∀ r ∈ sparse_regs inp,
        0 ≤ (inp.Nsamples : ℤ) - (counts inp.assign r : ℤ)
        ∧ (inp.Nsamples : ℤ) - (counts inp.assign r : ℤ) ≤ (inp.Nsamples : ℤ)
        ∧ ¬ ((inp.Nsamples : ℤ) < (inp.Nsamples : ℤ) - (counts inp.assign r : ℤ)))
    ∧ (inp.memory.length = inp.Nsamples + 1 →
        (memAt inp.memory (sparse_k inp)).isSome
        ∧ ∀ r ∈ sparse_regs inp,
            (memAt inp.memory ((inp.Nsamples : ℤ) - (counts inp.assign r : ℤ))).isSome) := by
  have hk := sparse_k_eq inp hlen
  have habs : absorbedCount inp.assign ≤ inp.Nsamples := by
    have := hits_length_add_absorbed inp.assign
    omega
  refine ⟨⟨by omega, by omega, by omega⟩, ?_, ?_⟩
  · intro r _
    have := counts_le_Nsamples inp hlen r
    exact ⟨by omega, by omega, by omega⟩
  · intro hmem
    constructor
    · exact memAt_isSome (by omega) (by omega)
    · intro r _
      have := counts_le_Nsamples inp hlen r
      exact memAt_isSome (by omega) (by omega)

/-- Witness for C10 at a concrete input. -/
theorem C10_witness :
    exC10.assign.length = exC10.Nsamples ∧
    (0 ≤ sparse_k exC10 ∧ sparse_k exC10 ≤ (exC10.Nsamples : ℤ)
      ∧ ¬ ((exC10.Nsamples : ℤ) < sparse_k exC10)) :=
  ⟨rfl, (C10_sparse_guards_unreachable exC10 rfl).1⟩

theorem sparse_row_some {inp : SparseInput} {r : ℕ} {row : SRow}
    (h : sparse_row inp r = some row) :
    ∃ e, memAt inp.memory ((inp.Nsamples : ℤ) - (counts inp.assign r : ℤ)) = some e
      ∧ row = ⟨r, e.1, e.2, (counts inp.assign r : ℚ) / (inp.Nsamples : ℚ)⟩ := by
  unfold sparse_row at h
  rw [if_neg (by omega)] at h
  cases hm : memAt inp.memory ((inp.Nsamples : ℤ) - (counts inp.assign r : ℤ)) with
  | none => rw [hm] at h; simp at h
  | some e =>
    rw [hm] at h
    simp only [Option.map_some', Option.some.injEq] at h
    exact ⟨e, rfl, h.symm⟩

theorem sparse_some_parts {inp : SparseInput} {out : SparseOut}
    (hout : computeScenarioBounds_sparse inp = some out)
    (hknn : ¬ ((inp.Nsamples : ℤ) < sparse_k inp)) :
    ∃ mk rows, memAt inp.memory (sparse_k inp) = some mk
      ∧ mapO (sparse_row inp) (sparse_regs inp) = some rows
      ∧ out = sparse_out (1 - mk.2) (1 - mk.1) rows := by
  unfold computeScenarioBounds_sparse at hout
  rw [if_neg hknn] at hout
  cases hmk : memAt inp.memory (sparse_k inp) with
  | none => rw [hmk] at hout; simp at hout
  | some mk =>
    rw [hmk] at hout
    cases hrows : mapO (sparse_row inp) (sparse_regs inp) with
    | none => rw [hrows] at hout; simp at hout
    | some rows =>
      rw [hrows] at hout
      simp only [Option.map_some', Option.some.injEq] at hout
      exact ⟨mk, rows, rfl, rfl, hout.symm⟩

/-- Claim C2: in exact mode, for every successor region hit by count c >= 1 of
the N samples, the reported lower and upper probability bounds are the
scenario-table entries at key N - c (lower = memory[N-c][0],
upper = memory[N-c][1]) and the point estimate is c / N; the deadlock interval
is derived symmetrically from the number k of samples landing in no region as
[1 - memory[k][1], 1 - memory[k][0]]. -/
theorem C2_sparse_table_lookup (inp : SparseInput) (out : SparseOut)
    (hlen : inp.assign.length = inp.Nsamples)
    (hout : computeScenarioBounds_sparse inp = some out) :
    (∀ i r, out.successor_idxs.get? i = some r →
      1 ≤ counts inp.assign r
      ∧ out.probability_low.get? i
          = (memAt inp.memory ((inp.Nsamples : ℤ) - (counts inp.assign r : ℤ))).map Prod.fst
      ∧ out.probability_upp.get? i
          = (memAt inp.memory ((inp.Nsamples : ℤ) - (counts inp.assign r : ℤ))).map Prod.snd
      ∧ out.probability_approx.get? i
          = some ((counts inp.assign r : ℚ) / (inp.Nsamples : ℚ)))
    ∧ (∀ e, memAt inp.memory ((absorbedCount inp.assign : ℤ)) = some e →
        out.deadlock_low = 1 - e.2 ∧ out.deadlock_upp = 1 - e.1) := by
  have hkeq := sparse_k_eq inp hlen
  have habs : absorbedCount inp.assign ≤ inp.Nsamples := by
    have := hits_length_add_absorbed inp.assign
    omega
  obtain ⟨mk, rows, hmk, hrows, hdef⟩ := sparse_some_parts hout (by omega)
  obtain ⟨hrlen, hrget⟩ := mapO_some hrows
  subst hdef
  constructor
  · intro i r hsucc
    have hs : (rows.map (·.region)).get? i = some r := hsucc
    rw [List.get?_eq_getElem?, List.getElem?_map, ← List.get?_eq_getElem?] at hs
    cases hrow : rows.get? i with
    | none => rw [hrow] at hs; simp at hs
    | some row =>
      rw [hrow] at hs
      simp only [Option.map_some', Option.some.injEq] at hs
      have hi : i < rows.length := by
        by_contra hge
        rw [List.get?_eq_none.2 (by omega)] at hrow
        exact Option.noConfusion hrow
      have hi' : i < (sparse_regs inp).length := by omega
      obtain ⟨a, ha⟩ : ∃ a, (sparse_regs inp).get? i = some a :=
        ⟨_, List.get?_eq_get hi'⟩
      have hrow2 : rows.get? i = sparse_row inp a := hrget i a ha
      rw [hrow] at hrow2
      obtain ⟨e, he, hroweq⟩ := sparse_row_some hrow2.symm
      subst hroweq
      have har : a = r := hs
      subst har
      have hmem : a ∈ sparse_regs inp := List.get?_mem ha
      have hcnt : 0 < counts inp.assign a := by
        apply List.count_pos_iff.2
        exact (firstDedup_mem (hits inp.assign) a).1 hmem
      refine ⟨hcnt, ?_, ?_, ?_⟩
      · show (rows.map (·.low)).get? i = _
        rw [List.get?_eq_getElem?, List.getElem?_map, ← List.get?_eq_getElem?, hrow, he]
        rfl
      · show (rows.map (·.upp)).get? i = _
        rw [List.get?_eq_getElem?, List.getElem?_map, ← List.get?_eq_getElem?, hrow, he]
        rfl
      · show (rows.map (·.approx)).get? i = _
        rw [List.get?_eq_getElem?, List.getElem?_map, ← List.get?_eq_getElem?, hrow]
        rfl
  · intro e he
    rw [← hkeq] at he
    rw [hmk] at he
    injection he with he
    subst he
    exact ⟨rfl, rfl⟩

/-- Witness for C2 at a concrete input: 2 samples, one hitting region 0, one
absorbed; the deadlock interval comes from the table entry at key 1. -/
theorem C2_witness :
    exC2w.assign.length = exC2w.Nsamples
    ∧ exC2w_out.deadlock_low = 1 - ((1/10 : ℚ), (1/2 : ℚ)).2
    ∧ exC2w_out.deadlock_upp = 1 - ((1/10 : ℚ), (1/2 : ℚ)).1 :=
  ⟨rfl, (C2_sparse_table_lookup exC2w exC2w_out rfl rfl).2 (1/10, 1/2) rfl⟩

theorem floor_decimal_zero : floor_decimal 0 5 = 0 := by
  unfold floor_decimal np_round
  rw [show ((0:ℚ) - 1/2 * (1/10^5)) * 10^5 = ((-1 : ℤ) : ℚ) + 1/2 by push_cast; norm_num]
  rw [rhe_eq_tie_odd rfl (by decide)]
  norm_num

/-- Claim C4, failing run: on exC4 (6 samples, 6 regions hit once each) the
reported deadlock point estimate is exactly the rounded residue
np_round(1 - sum(rounded estimates), 5), and it is negative (-2e-05): the
source has no clamp at zero. -/
theorem C4_deadlock_negative :
    computeScenarioBounds_sparse exC4 = some exC4_out
    ∧ exC4_out.deadlock_approx = np_round (1 - exC4_out.approx_round.sum) 5
    ∧ exC4_out.deadlock_approx < 0 := by
  refine ⟨rfl, rfl, ?_⟩
  have hc : np_round (((1:ℕ) : ℚ) / ((6:ℕ) : ℚ)) 5 = 16667/100000 := by
    unfold np_round
    rw [show ((((1:ℕ) : ℚ) / ((6:ℕ) : ℚ)) * 10 ^ 5) = ((16666 : ℤ) : ℚ) + 2/3 by
      push_cast; norm_num]
    rw [@rhe_eq_high _ 16666 (by push_cast; norm_num) (by push_cast; norm_num)]
    push_cast; norm_num
  have ha : exC4_out.approx_round
      = List.replicate 6 (np_round (((1:ℕ) : ℚ) / ((6:ℕ) : ℚ)) 5) := rfl
  show np_round (1 - exC4_out.approx_round.sum) 5 < 0
  rw [ha, hc, List.sum_replicate]
  have hval : (1 : ℚ) - 6 • ((16667 : ℚ)/100000) = -(1/50000) := by
    rw [nsmul_eq_mul]
    norm_num
  rw [hval]
  unfold np_round
  rw [show (-(1/50000 : ℚ)) * 10 ^ 5 = ((-2 : ℤ) : ℚ) by push_cast; norm_num]
  rw [rhe_eq_low (le_refl _) (by norm_num)]
  push_cast
  norm_num

/-- Counterexample for C5: a well-formed scenario table whose upper entry at
the used key is 5e-6 < 1e-4 makes the reported successor interval
[1e-4, 0.0], with lower bound strictly above the upper bound. -/
theorem C5_lb_gt_ub_cex :
    computeScenarioBounds_sparse exC5 = some exC5_out
    ∧ exC5_out.interval_lb = [1/10000]
    ∧ exC5_out.interval_ub = [0]
    ∧ ¬ ((1/10000 : ℚ) ≤ 0) := by
  have hz := floor_decimal_zero
  have hsmall : floor_decimal (1/200000) 5 = 0 := by
    unfold floor_decimal np_round
    rw [show ((1/200000 : ℚ) - 1/2 * (1/10^5)) * 10^5 = ((0 : ℤ) : ℚ) by push_cast; norm_num]
    rw [rhe_eq_low (le_refl _) (by norm_num)]
    norm_num
  refine ⟨rfl, ?_, ?_, by norm_num⟩
  · show [floor_decimal (max Pmin (floor_decimal 0 5)) 5] = [1/10000]
    rw [hz, max_eq_left (by norm_num [Pmin]), floor_decimal_pmin]
    norm_num [Pmin]
  · show [floor_decimal (min 1 (floor_decimal (1/200000) 5)) 5] = [0]
    rw [hsmall, min_eq_right (by norm_num), hz]

/-! Clustering lemmas (C6, C7). -/

theorem distSq_self (s : List ℚ) : distSq s s = 0 := by
  unfold distSq
  induction s with
  | nil => rfl
  | cons a t ih =>
    rw [List.zip_cons_cons, List.map_cons, List.sum_cons, ih]
    ring

theorem below_self {r : ℚ} (hr : 0 < r) (s : List ℚ) : below r s s = true := by
  unfold below
  rw [distSq_self]
  simp only [Bool.and_eq_true, decide_eq_true_eq]
  exact ⟨hr, pow_pos hr 2⟩

theorem length_filter_partition {α : Type} (l : List α) (p : α → Bool) :
    (l.filter p).length + (l.filter (fun x => ! p x)).length = l.length := by
  induction l with
  | nil => rfl
  | cons a t ih =>
    by_cases h : p a <;> simp [List.filter_cons, h] <;> omega

theorem greedy_value_sum {r : ℚ} (hr : 0 < r) :
    ∀ (fuel : ℕ) (l : List (List ℚ)), l.length ≤ fuel →
      ((greedy r fuel l).map (·.value)).sum = l.length := by
  intro fuel
  induction fuel with
  | zero =>
    intro l hl
    have hnil : l = [] := List.length_eq_zero.1 (by omega)
    subst hnil
    rfl
  | succ n ih =>
    intro l hl
    cases l with
    | nil => rfl
    | cons s rest =>
      have hg : greedy r (n + 1) (s :: rest)
          = ⟨((s :: rest).filter (below r s)).length,
             pmin ((s :: rest).filter (below r s)),
             pmax ((s :: rest).filter (below r s))⟩
            :: greedy r n ((s :: rest).filter (fun x => ! below r s x)) := rfl
      rw [hg, List.map_cons, List.sum_cons]
      have hpart := length_filter_partition (s :: rest) (below r s)
      have hsf : (s :: rest).filter (fun x => ! below r s x)
          = rest.filter (fun x => ! below r s x) := by
        simp [List.filter_cons, below_self hr s]
      have hle := List.length_filter_le (fun x => ! below r s x) rest
      have hl' : rest.length ≤ n := by
        rw [List.length_cons] at hl
        omega
      rw [ih _ (by rw [hsf]; exact hle.trans hl')]
      exact hpart

/-- Claim C6: for every sample set, after the greedy clustering step the sum of
the cluster sizes equals the original number of noise samples exactly (the
assertion sum(clusters0.value) == noise_samples of the source). Clustering
only runs for a positive configured radius (args.sample_clustering > 0). -/
theorem C6_cluster_sizes_sum (r : ℚ) (samples : List (List ℚ)) (hr : 0 < r) :
    ((cluster_samples r samples).map (·.value)).sum = samples.length :=
  greedy_value_sum hr samples.length samples (le_refl _)

/-- Witness for C6 at a concrete sample list. -/
theorem C6_witness :
    (0 : ℚ) < 1 ∧ ((cluster_samples 1 exC6w).map (·.value)).sum = exC6w.length :=
  ⟨by norm_num, C6_cluster_sizes_sum 1 exC6w (by norm_num)⟩

theorem foldl_zipf_get (f : ℚ → ℚ → ℚ) (hf : ∀ a b, f a b = a ∨ f a b = b) :
    ∀ (xs : List (List ℚ)) (acc : List ℚ) (i : ℕ) (q : ℚ),
      (xs.foldl (fun a b => (a.zip b).map fun p => f p.1 p.2) acc).get? i = some q →
      acc.get? i = some q ∨ ∃ x ∈ xs, x.get? i = some q := by
  intro xs
  induction xs with
  | nil => intro acc i q h; exact Or.inl h
  | cons b bs ih =>
    intro acc i q h
    rw [List.foldl_cons] at h
    rcases ih _ i q h with hacc | ⟨x, hx, hxq⟩
    · rw [List.get?_eq_getElem?, List.getElem?_map, ← List.get?_eq_getElem?] at hacc
      cases hz : (acc.zip b).get? i with
      | none => rw [hz] at hacc; simp at hacc
      | some p =>
        rw [hz] at hacc
        simp only [Option.map_some', Option.some.injEq] at hacc
        obtain ⟨hza, hzb⟩ := (List.get?_zip_eq_some _ _ _ _).1 hz
        rcases hf p.1 p.2 with hfp | hfp
        · left; rw [hza, hacc.symm, hfp]
        · right
          exact ⟨b, List.mem_cons_self _ _, by rw [hzb, hacc.symm, hfp]⟩
    · exact Or.inr ⟨x, List.mem_cons_of_mem _ hx, hxq⟩

theorem pmin_get {L : List (List ℚ)} {i : ℕ} {q : ℚ} (h : (pmin L).get? i = some q) :
    ∃ x ∈ L, x.get? i = some q := by
  cases L with
  | nil => simp [pmin] at h
  | cons x xs =>
    rcases foldl_zipf_get min min_choice xs x i q h with h1 | ⟨y, hy, hyq⟩
    · exact ⟨x, List.mem_cons_self _ _, h1⟩
    · exact ⟨y, List.mem_cons_of_mem _ hy, hyq⟩

theorem pmax_get {L : List (List ℚ)} {i : ℕ} {q : ℚ} (h : (pmax L).get? i = some q) :
    ∃ x ∈ L, x.get? i = some q := by
  cases L with
  | nil => simp [pmax] at h
  | cons x xs =>
    rcases foldl_zipf_get max max_choice xs x i q h with h1 | ⟨y, hy, hyq⟩
    · exact ⟨x, List.mem_cons_self _ _, h1⟩
    · exact ⟨y, List.mem_cons_of_mem _ hy, hyq⟩

theorem foldl_zipf_length (f : ℚ → ℚ → ℚ) :
    ∀ (xs : List (List ℚ)) (acc : List ℚ),
      (xs.foldl (fun a b => (a.zip b).map fun p => f p.1 p.2) acc).length ≤ acc.length
      ∧ ∀ b ∈ xs,
          (xs.foldl (fun a b => (a.zip b).map fun p => f p.1 p.2) acc).length ≤ b.length := by
  intro xs
  induction xs with
  | nil =>
    intro acc
    exact ⟨le_refl _, by simp⟩
  | cons b bs ih =>
    intro acc
    have h1 := (ih ((acc.zip b).map fun p => f p.1 p.2)).1
    have h2 := (ih ((acc.zip b).map fun p => f p.1 p.2)).2
    have hlen : ((acc.zip b).map fun p => f p.1 p.2).length = min acc.length b.length := by
      simp [List.length_zip]
    rw [List.foldl_cons]
    constructor
    · exact h1.trans (by omega)
    · intro b' hb'
      rcases List.mem_cons.1 hb' with rfl | hb'
      · exact h1.trans (by omega)
      · exact h2 b' hb'

theorem pmin_length_le {L : List (List ℚ)} {x : List ℚ} (hx : x ∈ L) :
    (pmin L).length ≤ x.length := by
  cases L with
  | nil => simp at hx
  | cons y ys =>
    rcases List.mem_cons.1 hx with rfl | hx
    · exact (foldl_zipf_length min ys x).1
    · exact (foldl_zipf_length min ys y).2 x hx

theorem pmax_length_le {L : List (List ℚ)} {x : List ℚ} (hx : x ∈ L) :
    (pmax L).length ≤ x.length := by
  cases L with
  | nil => simp at hx
  | cons y ys =>
    rcases List.mem_cons.1 hx with rfl | hx
    · exact (foldl_zipf_length max ys x).1
    · exact (foldl_zipf_length max ys y).2 x hx

theorem greedy_mem {r : ℚ} (hr : 0 < r) :
    ∀ (fuel : ℕ) (l : List (List ℚ)) (c : Cluster), c ∈ greedy r fuel l →
      ∃ (s : List ℚ) (inC : List (List ℚ)),
        s ∈ inC ∧ (∀ x ∈ inC, below r s x = true)
        ∧ c.lb = pmin inC ∧ c.ub = pmax inC := by
  intro fuel
  induction fuel with
  | zero =>
    intro l c hc
    rw [show greedy r 0 l = [] from rfl] at hc
    simp at hc
  | succ n ih =>
    intro l c hc
    cases l with
    | nil =>
      rw [show greedy r (n + 1) [] = [] from rfl] at hc
      simp at hc
    | cons s rest =>
      have hg : greedy r (n + 1) (s :: rest)
          = ⟨((s :: rest).filter (below r s)).length,
             pmin ((s :: rest).filter (below r s)),
             pmax ((s :: rest).filter (below r s))⟩
            :: greedy r n ((s :: rest).filter (fun x => ! below r s x)) := rfl
      rw [hg] at hc
      rcases List.mem_cons.1 hc with rfl | hc
      · refine ⟨s, (s :: rest).filter (below r s), ?_, ?_, rfl, rfl⟩
        · exact List.mem_filter.2 ⟨List.mem_cons_self _ _, below_self hr s⟩
        · intro x hx
          exact (List.mem_filter.1 hx).2
      · exact ih _ c hc

theorem below_coord {r : ℚ} {s x : List ℚ} (h : below r s x = true)
    {i : ℕ} {si xi : ℚ} (hsi : s.get? i = some si) (hxi : x.get? i = some xi) :
    (xi - si) ^ 2 < r ^ 2 := by
  unfold below at h
  simp only [Bool.and_eq_true, decide_eq_true_eq] at h
  obtain ⟨_, hlt⟩ := h
  have hmem : (si, xi) ∈ s.zip x := by
    have : (s.zip x).get? i = some (si, xi) :=
      (List.get?_zip_eq_some _ _ _ _).2 ⟨hsi, hxi⟩
    exact List.get?_mem this
  have hle : (si - xi) ^ 2 ≤ distSq s x := by
    unfold distSq
    refine List.single_le_sum (fun y hy => ?_) _ (List.mem_map.2 ⟨(si, xi), hmem, rfl⟩)
    obtain ⟨z, _, rfl⟩ := List.mem_map.1 hy
    positivity
  calc (xi - si) ^ 2 = (si - xi) ^ 2 := by ring
  _ ≤ distSq s x := hle
  _ < r ^ 2 := hlt

/-- Claim C7, amended: every cluster produced by the greedy clustering step
groups samples within a bounding box whose side, in every dimension, is less
than TWICE the configured clustering radius (every member lies within
Euclidean distance < r of the seed sample, so each coordinate lies within an
open interval of width 2r around the seed's coordinate). -/
theorem C7_cluster_box_side (r : ℚ) (samples : List (List ℚ)) (hr : 0 < r)
    (c : Cluster) (hc : c ∈ cluster_samples r samples)
    (i : ℕ) (u v : ℚ) (hu : c.ub.get? i = some u) (hv : c.lb.get? i = some v) :
    u - v < 2 * r := by
  obtain ⟨s, inC, hs, hbel, hlb, hub⟩ := greedy_mem hr samples.length samples c hc
  rw [hub] at hu
  rw [hlb] at hv
  obtain ⟨x, hxmem, hxq⟩ := pmax_get hu
  obtain ⟨y, hymem, hyq⟩ := pmin_get hv
  have hiu : i < (pmax inC).length := by
    by_contra hge
    rw [List.get?_eq_none.2 (by omega)] at hu
    exact Option.noConfusion hu
  have his : i < s.length := by
    have := pmax_length_le hs
    omega
  obtain ⟨si, hsi⟩ : ∃ si, s.get? i = some si := ⟨s.get ⟨i, his⟩, List.get?_eq_get his⟩
  have hx2 := below_coord (hbel x hxmem) hsi hxq
  have hy2 := below_coord (hbel y hymem) hsi hyq
  have hxlt : u - si < r := by nlinarith [sq_nonneg (u - si - r), sq_nonneg (u - si + r)]
  have hylt : si - v < r := by nlinarith [sq_nonneg (v - si - r), sq_nonneg (v - si + r)]
  linarith

theorem exC7_cluster_eval : cluster_samples 1 exC7 = [⟨3, [-(9/10)], [9/10]⟩] := by
  have hb0 : below 1 [(0:ℚ)] [(0:ℚ)] = true := below_self (by norm_num) _
  have hb1 : below 1 [(0:ℚ)] [(9:ℚ)/10] = true := by
    unfold below distSq
    norm_num
  have hb2 : below 1 [(0:ℚ)] [-((9:ℚ)/10)] = true := by
    unfold below distSq
    norm_num
  have hfilter : exC7.filter (below 1 [(0:ℚ)]) = exC7 := by
    show List.filter _ (.cons _ (.cons _ (.cons _ .nil))) = _
    rw [List.filter_cons_of_pos hb0, List.filter_cons_of_pos hb1,
        List.filter_cons_of_pos hb2]
    rfl
  have hfilter2 : exC7.filter (fun x => ! below 1 [(0:ℚ)] x) = [] := by
    show List.filter _ (.cons _ (.cons _ (.cons _ .nil))) = _
    rw [List.filter_cons_of_neg (by rw [hb0]; simp),
        List.filter_cons_of_neg (by rw [hb1]; simp),
        List.filter_cons_of_neg (by rw [hb2]; simp)]
    rfl
  have hg : cluster_samples 1 exC7
      = ⟨(exC7.filter (below 1 [(0:ℚ)])).length, pmin (exC7.filter (below 1 [(0:ℚ)])),
         pmax (exC7.filter (below 1 [(0:ℚ)]))⟩
        :: greedy 1 2 (exC7.filter (fun x => ! below 1 [(0:ℚ)] x)) := rfl
  rw [hg, hfilter, hfilter2]
  show [(⟨exC7.length, pmin exC7, pmax exC7⟩ : Cluster)] = _
  simp only [List.cons.injEq, and_true, Cluster.mk.injEq]
  refine ⟨rfl, ?_, ?_⟩
  · show [min (min (0:ℚ) (9/10)) (-(9/10))] = [-(9/10)]
    norm_num
  · show [max (max (0:ℚ) (9/10)) (-(9/10))] = [(9:ℚ)/10]
    norm_num

/-- Counterexample for C7: with clustering radius 1, the greedy step puts the
three samples 0, 9/10, -9/10 into one cluster whose bounding box has side
9/5 > 1: the box side can exceed the radius (it is only bounded by twice the
radius). -/
theorem C7_box_exceeds_radius_cex :
    cluster_samples 1 exC7 = [(⟨3, [-(9/10)], [9/10]⟩ : Cluster)]
    ∧ ¬ ((9/10 : ℚ) - (-(9/10)) ≤ 1) :=
  ⟨exC7_cluster_eval, by norm_num⟩

/-- Witness for the amended C7 at the concrete counterexample cluster. -/
theorem C7_witness : (9/10 : ℚ) - (-(9/10)) < 2 * 1 :=
  C7_cluster_box_side 1 exC7 (by norm_num) ⟨3, [-(9/10)], [9/10]⟩
    (by rw [exC7_cluster_eval]; exact List.mem_singleton_self _)
    0 (9/10) (-(9/10)) rfl rfl

/-- Claim C8: if, after the Action Enabler pass, zero actions end up enabled
in any region, the pipeline terminates fatally with a clear diagnostic
(printWarning then sys.exit, embedded as Except.error carrying the warning
text) and with no retry; with at least one enabled action it continues. -/
theorem C8_zero_enabled_terminates (enabled_in : List (List ℕ))
    (h : ∀ l ∈ enabled_in, l = []) :
    nr_act_of enabled_in = 0
    ∧ check_enabled (nr_act_of enabled_in) = Except.error no_actions_msg
    ∧ ∀ n : ℕ, 0 < n → check_enabled n = Except.ok () := by
  have hz : nr_act_of enabled_in = 0 := by
    unfold nr_act_of
    rw [List.length_eq_zero, List.filter_eq_nil_iff]
    intro a ha
    rw [h a ha]
    simp
  refine ⟨hz, by rw [hz]; rfl, ?_⟩
  intro n hn
  unfold check_enabled
  rw [if_neg (by omega)]

/-- Witness for C8: one action enabled nowhere. -/
theorem C8_witness :
    (∀ l ∈ ([[]] : List (List ℕ)), l = [])
    ∧ check_enabled (nr_act_of [[]]) = Except.error no_actions_msg :=
  ⟨by simp, (C8_zero_enabled_terminates [[]] (by simp)).2.1⟩

/-- Claim C9: loadPRISMresults parses the policy and value files with a fixed
offset (dropping the first 3 columns of the policy table and the first 3 rows
of the value vector), maps missing policy entries to the sentinel -1 and
otherwise takes split(sep)[1] as the action id, flips the policy table's time
ordering (the solver emits the last time step first), and, when the declared
problem type requires it, converts the avoid probability by subtracting each
value from 1. -/
theorem C9_load_prism_results (problem_type : Bool)
    (policy_rows : List (List (Option String))) (vector_rows : List ℚ)
    (res : PrismResults)
    (hres : loadPRISMresults problem_type policy_rows vector_rows = some res) :
    res.optimal_policy.length = policy_rows.length
    ∧ (∀ i row, i < policy_rows.length →
        policy_rows.get? (policy_rows.length - 1 - i) = some row →
          ∃ prow, res.optimal_policy.get? i = some prow
            ∧ prow.length = row.length - 3
            ∧ (∀ j, prow.get? j = (row.get? (3 + j)).bind parse_policy_cell)
            ∧ (∀ j, row.get? (3 + j) = some none → prow.get? j = some (-1)))
    ∧ res.optimal_reward.length = vector_rows.length - 3
    ∧ (∀ i, res.optimal_reward.get? i
        = (vector_rows.get? (3 + i)).map (fun v => if problem_type then 1 - v else v)) := by
  unfold loadPRISMresults at hres
  simp only [] at hres
  cases hpol : mapO (mapO parse_policy_cell) ((policy_rows.map (List.drop 3)).reverse) with
  | none => rw [hpol] at hres; simp at hres
  | some pol =>
    rw [hpol] at hres
    simp only [Option.some.injEq] at hres
    subst hres
    obtain ⟨hlen, hget⟩ := mapO_some hpol
    have hlen' : pol.length = policy_rows.length := by
      simpa using hlen
    refine ⟨hlen', ?_, ?_, ?_⟩
    · intro i row hi hrow
      have hflip : ((policy_rows.map (List.drop 3)).reverse).get? i
          = some (row.drop 3) := by
        rw [List.get?_eq_getElem?,
            List.getElem?_reverse (by simpa using hi), ← List.get?_eq_getElem?]
        rw [List.get?_eq_getElem?, List.getElem?_map, ← List.get?_eq_getElem?]
        simp only [List.length_map]
        rw [hrow]
        rfl
      have hpget : pol.get? i = mapO parse_policy_cell (row.drop 3) :=
        hget i (row.drop 3) hflip
      cases hprow : mapO parse_policy_cell (row.drop 3) with
      | none =>
        rw [hprow] at hpget
        have : i < pol.length := by omega
        obtain ⟨a, ha⟩ : ∃ a, pol.get? i = some a := ⟨_, List.get?_eq_get this⟩
        rw [ha] at hpget
        exact Option.noConfusion hpget
      | some prow =>
        rw [hprow] at hpget
        obtain ⟨hplen, hpg⟩ := mapO_some hprow
        refine ⟨prow, hpget, by simpa using hplen, ?_, ?_⟩
        · intro j
          by_cases hj : j < (row.drop 3).length
          · obtain ⟨cell, hcell⟩ : ∃ c, (row.drop 3).get? j = some c :=
              ⟨_, List.get?_eq_get hj⟩
            have hcell' : row.get? (3 + j) = some cell := by
              rw [List.get?_eq_getElem?] at hcell ⊢
              rw [← List.getElem?_drop]
              exact hcell
            rw [hcell', hpg j cell hcell]
            rfl
          · rw [List.get?_eq_none.2 (by omega)]
            have hrowlen : row.length ≤ 3 + j := by
              rw [List.length_drop] at hj
              omega
            rw [List.get?_eq_none.2 hrowlen]
            rfl
        · intro j hcell
          have hc : (row.drop 3).get? j = some none := by
            rw [List.get?_eq_getElem?, List.getElem?_drop, ← List.get?_eq_getElem?]
            exact hcell
          rw [hpg j none hc]
          rfl
    · cases problem_type <;> simp [List.length_drop]
    · intro i
      cases problem_type with
      | false =>
        show (vector_rows.drop 3).get? i = _
        rw [List.get?_eq_getElem?, List.getElem?_drop, ← List.get?_eq_getElem?]
        simp
      | true =>
        show ((vector_rows.drop 3).map (fun v => 1 - v)).get? i = _
        rw [List.get?_eq_getElem?, List.getElem?_map, List.getElem?_drop,
            ← List.get?_eq_getElem?]
        simp

/-- Witness for C9 at concrete files: one policy row of missing cells and a
4-row vector, with the avoid-to-safety conversion active. -/
theorem C9_witness :
    loadPRISMresults true exC9_policy exC9_vector = some exC9_res
    ∧ exC9_res.optimal_policy.length = exC9_policy.length
    ∧ exC9_res.optimal_reward.get? 0
        = (exC9_vector.get? 3).map (fun v => if (true : Bool) then 1 - v else v) :=
  ⟨rfl, (C9_load_prism_results true exC9_policy exC9_vector exC9_res rfl).1,
    (C9_load_prism_results true exC9_policy exC9_vector exC9_res rfl).2.2.2 0⟩

/-! Interval-mode counting stage lemmas (C1). -/

theorem singleStep_fields (inp : ErrorInput) (s : ErrCounts) (c : ClusterIdx) :
    (singleStep inp s c).absorb_low = s.absorb_low
    ∧ (singleStep inp s c).absorb_upp = s.absorb_upp
    ∧ (singleStep inp s c).goal_low = s.goal_low + sGoal inp c
    ∧ (singleStep inp s c).goal_upp = s.goal_upp + sGoal inp c
    ∧ (singleStep inp s c).critical_low = s.critical_low + sCrit inp c
    ∧ (singleStep inp s c).critical_upp = s.critical_upp + sCrit inp c
    ∧ (∀ t, (singleStep inp s c).counts_low t = s.counts_low t + sArr inp t c)
    ∧ (∀ t, (singleStep inp s c).counts_upp t = s.counts_upp t + sArr inp t c) := by
  by_cases hg : c.imin ∈ inp.goal_idx
  · refine ⟨?_, ?_, ?_, ?_, ?_, ?_, ?_, ?_⟩ <;>
      simp [singleStep, sGoal, sCrit, sArr, hg]
  · by_cases hc : c.imin ∈ inp.critical_idx
    · refine ⟨?_, ?_, ?_, ?_, ?_, ?_, ?_, ?_⟩ <;>
        simp [singleStep, sGoal, sCrit, sArr, hg, hc]
    · refine ⟨?_, ?_, ?_, ?_, ?_, ?_, ?_, ?_⟩ <;>
        simp [singleStep, sGoal, sCrit, sArr, bump, hg, hc] <;>
        intro t <;> by_cases ht : t = c.imin <;> simp [ht, hg, hc]

theorem singleStep_foldl (inp : ErrorInput) :
    ∀ (l : List ClusterIdx) (s0 : ErrCounts),
      (l.foldl (singleStep inp) s0).absorb_low = s0.absorb_low
      ∧ (l.foldl (singleStep inp) s0).absorb_upp = s0.absorb_upp
      ∧ (l.foldl (singleStep inp) s0).goal_low = s0.goal_low + (l.map (sGoal inp)).sum
      ∧ (l.foldl (singleStep inp) s0).goal_upp = s0.goal_upp + (l.map (sGoal inp)).sum
      ∧ (l.foldl (singleStep inp) s0).critical_low
          = s0.critical_low + (l.map (sCrit inp)).sum
      ∧ (l.foldl (singleStep inp) s0).critical_upp
          = s0.critical_upp + (l.map (sCrit inp)).sum
      ∧ (∀ t, (l.foldl (singleStep inp) s0).counts_low t
          = s0.counts_low t + (l.map (sArr inp t)).sum)
      ∧ (∀ t, (l.foldl (singleStep inp) s0).counts_upp t
          = s0.counts_upp t + (l.map (sArr inp t)).sum) := by
  intro l
  induction l with
  | nil => intro s0; simp
  | cons c cs ih =>
    intro s0
    obtain ⟨i1, i2, i3, i4, i5, i6, i7, i8⟩ := ih (singleStep inp s0 c)
    obtain ⟨f1, f2, f3, f4, f5, f6, f7, f8⟩ := singleStep_fields inp s0 c
    simp only [List.foldl_cons, List.map_cons, List.sum_cons]
    refine ⟨by rw [i1, f1], by rw [i2, f2], by rw [i3, f3]; omega, by rw [i4, f4]; omega,
            by rw [i5, f5]; omega, by rw [i6, f6]; omega, ?_, ?_⟩
    · intro t
      rw [i7 t, f7 t]
      omega
    · intro t
      rw [i8 t, f8 t]
      omega

theorem remStep_fields (inp : ErrorInput) (s : ErrCounts) (p : ℕ × ClusterIdx) :
    (remStep inp s p).absorb_low = s.absorb_low
    ∧ (remStep inp s p).absorb_upp = s.absorb_upp
    ∧ (remStep inp s p).goal_low = s.goal_low + rCertGoal inp p
    ∧ (remStep inp s p).goal_upp = s.goal_upp + rCertGoal inp p + rPossGoal inp p
    ∧ (remStep inp s p).critical_low = s.critical_low + rCertCrit inp p
    ∧ (remStep inp s p).critical_upp = s.critical_upp + rCertCrit inp p + rPossCrit inp p
    ∧ (∀ t, (remStep inp s p).counts_low t = s.counts_low t)
    ∧ (∀ t, (remStep inp s p).counts_upp t = s.counts_upp t + rBox inp t p) := by
  by_cases hcg : rcondCertGoal inp p
  · refine ⟨?_, ?_, ?_, ?_, ?_, ?_, ?_, ?_⟩ <;>
      simp [remStep, rCertGoal, rCertCrit, rPossGoal, rPossCrit, rBox, bumpBox, hcg] <;>
      (intro t; by_cases ht : t ∈ touched inp.number p.2 <;> simp [ht])
  · by_cases hcc : rcondCertCrit inp p
    · refine ⟨?_, ?_, ?_, ?_, ?_, ?_, ?_, ?_⟩ <;>
        simp [remStep, rCertGoal, rCertCrit, rPossGoal, rPossCrit, rBox, bumpBox,
              hcg, hcc] <;>
        (intro t; by_cases ht : t ∈ touched inp.number p.2 <;> simp [ht])
    · by_cases hag : (touched inp.number p.2).any (fun t => decide (t ∈ inp.goal_idx)) <;>
      by_cases hac : (touched inp.number p.2).any (fun t => decide (t ∈ inp.critical_idx)) <;>
      · refine ⟨?_, ?_, ?_, ?_, ?_, ?_, ?_, ?_⟩ <;>
          simp [remStep, rCertGoal, rCertCrit, rPossGoal, rPossCrit, rBox, bumpBox,
                hcg, hcc, hag, hac] <;>
          (intro t; by_cases ht : t ∈ touched inp.number p.2 <;> simp [ht])

theorem remStep_foldl (inp : ErrorInput) :
    ∀ (L : List (ℕ × ClusterIdx)) (s0 : ErrCounts),
      (L.foldl (remStep inp) s0).absorb_low = s0.absorb_low
      ∧ (L.foldl (remStep inp) s0).absorb_upp = s0.absorb_upp
      ∧ (L.foldl (remStep inp) s0).goal_low = s0.goal_low + (L.map (rCertGoal inp)).sum
      ∧ (L.foldl (remStep inp) s0).goal_upp
          = s0.goal_upp + (L.map (rCertGoal inp)).sum + (L.map (rPossGoal inp)).sum
      ∧ (L.foldl (remStep inp) s0).critical_low
          = s0.critical_low + (L.map (rCertCrit inp)).sum
      ∧ (L.foldl (remStep inp) s0).critical_upp
          = s0.critical_upp + (L.map (rCertCrit inp)).sum + (L.map (rPossCrit inp)).sum
      ∧ (∀ t, (L.foldl (remStep inp) s0).counts_low t = s0.counts_low t)
      ∧ (∀ t, (L.foldl (remStep inp) s0).counts_upp t
          = s0.counts_upp t + (L.map (rBox inp t)).sum) := by
  intro L
  induction L with
  | nil => intro s0; simp
  | cons p ps ih =>
    intro s0
    obtain ⟨i1, i2, i3, i4, i5, i6, i7, i8⟩ := ih (remStep inp s0 p)
    obtain ⟨f1, f2, f3, f4, f5, f6, f7, f8⟩ := remStep_fields inp s0 p
    simp only [List.foldl_cons, List.map_cons, List.sum_cons]
    refine ⟨by rw [i1, f1], by rw [i2, f2], by rw [i3, f3]; omega, by rw [i4, f4]; omega,
            by rw [i5, f5]; omega, by rw [i6, f6]; omega, ?_, ?_⟩
    · intro t
      rw [i7 t, f7 t]
    · intro t
      rw [i8 t, f8 t]
      omega

/-- Claim C1, amended: in interval mode the counting stage classifies clusters
as follows. A cluster whose index box lies fully outside the partition adds
its count to the absorbing lower-bound count; a cluster whose box is partially
outside adds its count to the absorbing upper-bound count; a cluster resolving
to exactly one region under both index extremes (and not fully outside) adds
its count to both bounds of that region, or of the goal / critical aggregate
bucket when that region is a goal / critical region. Every remaining cluster
adds its count to the upper-bound count of each region its clipped box could
touch, AND in addition: if its touched set is contained in the goal (resp.
critical) index set and the consulted partially-outside flag is false, its
count is also added to BOTH the lower and upper goal (resp. critical)
aggregate counts; otherwise it adds its count to the goal (resp. critical)
aggregate upper count when the touched set meets that index set. (The
consulted flag is, by positional indexing in the source, the flag of the
cluster at position x of the full cluster list, where x is the position of the
remaining cluster in the remaining list.) -/
theorem C1_error_counts_characterization (inp : ErrorInput) :
    (errorCounts inp).absorb_low
        = ((inp.clusters.filter (fully_out inp.number)).map (·.value)).sum
    ∧ (errorCounts inp).absorb_upp
        = ((inp.clusters.filter (part_out inp.number)).map (·.value)).sum
    ∧ (errorCounts inp).goal_low
        = ((inp.clusters.filter (single_reg inp.number)).map (sGoal inp)).sum
          + ((remaining inp).map (rCertGoal inp)).sum
    ∧ (errorCounts inp).goal_upp
        = ((inp.clusters.filter (single_reg inp.number)).map (sGoal inp)).sum
          + ((remaining inp).map (rCertGoal inp)).sum
          + ((remaining inp).map (rPossGoal inp)).sum
    ∧ (errorCounts inp).critical_low
        = ((inp.clusters.filter (single_reg inp.number)).map (sCrit inp)).sum
          + ((remaining inp).map (rCertCrit inp)).sum
    ∧ (errorCounts inp).critical_upp
        = ((inp.clusters.filter (single_reg inp.number)).map (sCrit inp)).sum
          + ((remaining inp).map (rCertCrit inp)).sum
          + ((remaining inp).map (rPossCrit inp)).sum
    ∧ (∀ t, (errorCounts inp).counts_low t
        = ((inp.clusters.filter (single_reg inp.number)).map (sArr inp t)).sum)
    ∧ (∀ t, (errorCounts inp).counts_upp t
        = ((inp.clusters.filter (single_reg inp.number)).map (sArr inp t)).sum
          + ((remaining inp).map (rBox inp t)).sum) := by
  obtain ⟨a1, a2, a3, a4, a5, a6, a7, a8⟩ :=
    singleStep_foldl inp (inp.clusters.filter (single_reg inp.number)) (errInit inp)
  obtain ⟨b1, b2, b3, b4, b5, b6, b7, b8⟩ :=
    remStep_foldl inp (remaining inp)
      ((inp.clusters.filter (single_reg inp.number)).foldl (singleStep inp) (errInit inp))
  unfold errorCounts
  refine ⟨by rw [b1, a1]; rfl, by rw [b2, a2]; rfl,
          by rw [b3, a3, show (errInit inp).goal_low = 0 from rfl]; omega,
          by rw [b4, a4, show (errInit inp).goal_upp = 0 from rfl]; omega,
          by rw [b5, a5, show (errInit inp).critical_low = 0 from rfl]; omega,
          by rw [b6, a6, show (errInit inp).critical_upp = 0 from rfl]; omega, ?_, ?_⟩
  · intro t
    rw [b7 t, a7 t, show (errInit inp).counts_low t = 0 from rfl]
    omega
  · intro t
    rw [b8 t, a8 t, show (errInit inp).counts_upp t = 0 from rfl]
    omega

/-- Counterexample to C1 as stated: on exC1 the single cluster spans the two
goal regions [0] and [1] inside the partition, so it is a remaining cluster,
yet the code adds its count to the goal-aggregate LOWER count (goal_low = 1),
while the claim says remaining clusters contribute only to upper-bound counts,
predicting a goal-aggregate lower count of 0. -/
theorem C1_remaining_adds_goal_low_cex :
    (errorCounts exC1).goal_low = 1 ∧ C1_claim_goal_low exC1 = 0 := by decide

theorem error_some_parts {inp : ErrorInput} {out : ErrOut}
    (hout : computeScenarioBounds_error inp = some out) :
    ∃ dupE plow, memAt inp.memory (((errorCounts inp).absorb_upp : ℕ) : ℤ) = some dupE
      ∧ mapO (fun row => (memAt inp.memory
            (min ((inp.Nsamples : ℤ) - (row.clow : ℤ)) (inp.Nsamples : ℤ))).map Prod.fst)
          (counts_rows inp) = some plow
      ∧ out = error_out inp (1 - dupE.1) plow := by
  unfold computeScenarioBounds_error at hout
  cases hd : memAt inp.memory (((errorCounts inp).absorb_upp : ℕ) : ℤ) with
  | none => rw [hd] at hout; simp at hout
  | some dupE =>
    rw [hd] at hout
    cases hp : mapO (fun row => (memAt inp.memory
        (min ((inp.Nsamples : ℤ) - (row.clow : ℤ)) (inp.Nsamples : ℤ))).map Prod.fst)
        (counts_rows inp) with
    | none => rw [hp] at hout; simp at hout
    | some plow =>
      rw [hp] at hout
      simp only [Option.some.injEq] at hout
      exact ⟨dupE, plow, rfl, rfl, hout.symm⟩

/-- Claim C3, amended: in interval mode the successor upper probability bounds
are ALWAYS the Hoeffding-type term min(1, count_upp / N + epsilon) (epsilon =
sqrt(log(2 / confidence) / (2 N)) in the source), never a scenario-table
lookup, regardless of any cluster-count bound; the table is used only for the
successor lower bounds (at key min(N - count_low, N)) and the deadlock upper
bound, and the deadlock lower bound uses the Hoeffding term
max(0, count_absorb_low / N - epsilon). -/
theorem C3_hoeffding_always_for_upper (inp : ErrorInput) (out : ErrOut)
    (hout : computeScenarioBounds_error inp = some out) :
    out.probability_upp = (counts_rows inp).map
        (fun row => min 1 ((row.cupp : ℚ) / (inp.Nsamples : ℚ) + inp.epsilon))
    ∧ out.deadlock_low
        = max 0 (((errorCounts inp).absorb_low : ℚ) / (inp.Nsamples : ℚ) - inp.epsilon)
    ∧ (∀ e, memAt inp.memory (((errorCounts inp).absorb_upp : ℕ) : ℤ) = some e →
        out.deadlock_upp = 1 - e.1)
    ∧ (∀ i x, out.probability_low.get? i = some x →
        ∃ row e, (counts_rows inp).get? i = some row
          ∧ memAt inp.memory
              (min ((inp.Nsamples : ℤ) - (row.clow : ℤ)) (inp.Nsamples : ℤ)) = some e
          ∧ x = e.1) := by
  obtain ⟨dupE, plow, hd, hp, hdef⟩ := error_some_parts hout
  subst hdef
  obtain ⟨hlen, hget⟩ := mapO_some hp
  refine ⟨rfl, rfl, ?_, ?_⟩
  · intro e he
    rw [hd] at he
    injection he with he
    subst he
    rfl
  · intro i x hx
    have hx' : plow.get? i = some x := hx
    have hi : i < plow.length := by
      by_contra hge
      rw [List.get?_eq_none.2 (by omega)] at hx'
      exact Option.noConfusion hx'
    obtain ⟨row, hrow⟩ : ∃ row, (counts_rows inp).get? i = some row :=
      ⟨_, List.get?_eq_get (by omega)⟩
    have hpi := hget i row hrow
    rw [hx'] at hpi
    cases hm : memAt inp.memory
        (min ((inp.Nsamples : ℤ) - (row.clow : ℤ)) (inp.Nsamples : ℤ)) with
    | none => rw [hm] at hpi; exact Option.noConfusion hpi
    | some e =>
      rw [hm] at hpi
      simp only [Option.map_some', Option.some.injEq] at hpi
      exact ⟨row, e, hrow, hm, hpi⟩

/-- Counterexample to C3 as stated: on exC3 one cluster of one sample (cluster
count 1, below any sample-count bound) resolves to one ordinary region; the
claim predicts the upper bound memory[N - 1][1] = 9/10 from the table, but the
code returns the Hoeffding term min(1, 1/4 + 1/2) = 3/4. -/
theorem C3_table_not_used_cex :
    counts_rows exC3 = [⟨0, 1, 1⟩]
    ∧ (computeScenarioBounds_error exC3).map (·.probability_upp)
        = some [min 1 (((1:ℕ) : ℚ) / ((4:ℕ) : ℚ) + 1/2)]
    ∧ min (1:ℚ) (((1:ℕ) : ℚ) / ((4:ℕ) : ℚ) + 1/2) = 3/4
    ∧ (counts_rows exC3).map (C3_claim_upp exC3) = [some (9/10)]
    ∧ ((3:ℚ)/4) ≠ 9/10 :=
  ⟨rfl, rfl, by push_cast; norm_num, rfl, by norm_num⟩

/-- Witness for the amended C3 at the concrete input exC3. -/
theorem C3_witness :
    exC3_out.probability_upp = (counts_rows exC3).map
        (fun row => min 1 ((row.cupp : ℚ) / (exC3.Nsamples : ℚ) + exC3.epsilon)) :=
  (C3_hoeffding_always_for_upper exC3 exC3_out rfl).1

theorem memAt_mem {memory : List (ℚ × ℚ)} {k : ℤ} {e : ℚ × ℚ}
    (h : memAt memory k = some e) : e ∈ memory := by
  unfold memAt at h
  split_ifs at h
  exact List.get?_mem h

theorem Pmin_pos : 0 < Pmin := by norm_num [Pmin]

theorem Pmin_le_one : Pmin ≤ 1 := by norm_num [Pmin]

theorem sparse_rows_entry {inp : SparseInput} {rows : List SRow}
    (hrows : mapO (sparse_row inp) (sparse_regs inp) = some rows)
    {i : ℕ} {row : SRow} (hrow : rows.get? i = some row) :
    ∃ e, e ∈ inp.memory ∧ row.low = e.1 ∧ row.upp = e.2 := by
  obtain ⟨hlen, hget⟩ := mapO_some hrows
  have hi : i < rows.length := by
    by_contra hge
    rw [List.get?_eq_none.2 (by omega)] at hrow
    exact Option.noConfusion hrow
  obtain ⟨r, hr⟩ : ∃ r, (sparse_regs inp).get? i = some r :=
    ⟨_, List.get?_eq_get (by omega)⟩
  have h2 := hget i r hr
  rw [hrow] at h2
  obtain ⟨e, he, hroweq⟩ := sparse_row_some h2.symm
  subst hroweq
  exact ⟨e, memAt_mem he, rfl, rfl⟩

/-- Claim C5, amended: every successor probability interval [lb, ub] emitted by
the probability engine, and the deadlock interval, satisfies 0 <= lb <= ub <= 1
PROVIDED the scenario-table entries involved are well-formed and compatible
with the clamping constants: in exact mode every table entry (l, u) must
satisfy 0 <= l <= u <= 1 together with u >= 1e-4 and l <= 1 - 1e-4 (the
counterexample shows that a well-formed entry with u < 1e-4 already yields
lb > ub); in interval mode the Hoeffding epsilon must be at least 1e-4, the
table lower entry used by each successor row must not exceed that row's
Hoeffding upper term, and the deadlock entry l must satisfy 0 <= l <= 1 - 1e-4
with max(0, absorb_low / N - epsilon) <= 1 - l. -/
theorem C5_interval_bounds_in_range :
    (∀ (inp : SparseInput) (out : SparseOut),
      computeScenarioBounds_sparse inp = some out →
      (∀ e ∈ inp.memory, 0 ≤ e.1 ∧ e.1 ≤ e.2 ∧ e.2 ≤ 1 ∧ Pmin ≤ e.2 ∧ e.1 ≤ 1 - Pmin) →
      (∀ i lb ub, out.interval_lb.get? i = some lb → out.interval_ub.get? i = some ub →
          0 ≤ lb ∧ lb ≤ ub ∧ ub ≤ 1)
      ∧ (0 ≤ out.deadlock_interval_lb
          ∧ out.deadlock_interval_lb ≤ out.deadlock_interval_ub
          ∧ out.deadlock_interval_ub ≤ 1))
    ∧ (∀ (inp : ErrorInput) (out : ErrOut),
      computeScenarioBounds_error inp = some out →
      Pmin ≤ inp.epsilon →
      (∀ i row e, (counts_rows inp).get? i = some row →
          memAt inp.memory
            (min ((inp.Nsamples : ℤ) - (row.clow : ℤ)) (inp.Nsamples : ℤ)) = some e →
          e.1 ≤ min 1 ((row.cupp : ℚ) / (inp.Nsamples : ℚ) + inp.epsilon)) →
      (∀ e, memAt inp.memory (((errorCounts inp).absorb_upp : ℕ) : ℤ) = some e →
          0 ≤ e.1 ∧ e.1 ≤ 1 - Pmin
          ∧ max 0 (((errorCounts inp).absorb_low : ℚ) / (inp.Nsamples : ℚ) - inp.epsilon)
              ≤ 1 - e.1) →
      (∀ i lb ub, out.probs_lb.get? i = some lb → out.probs_ub.get? i = some ub →
          0 ≤ lb ∧ lb ≤ ub ∧ ub ≤ 1)
      ∧ (0 ≤ out.deadlock_lb ∧ out.deadlock_lb ≤ out.deadlock_ub
          ∧ out.deadlock_ub ≤ 1)) := by
  constructor
  · intro inp out hout hmem
    have hknn : ¬ ((inp.Nsamples : ℤ) < sparse_k inp) := by
      unfold sparse_k
      have h0 : (0:ℤ) ≤ ((sparse_regs inp).map (fun r => (counts inp.assign r : ℤ))).sum := by
        apply List.sum_nonneg
        intro x hx
        obtain ⟨r, _, rfl⟩ := List.mem_map.1 hx
        positivity
      omega
    obtain ⟨mk, rows, hmk, hrows, hdef⟩ := sparse_some_parts hout hknn
    subst hdef
    obtain ⟨hmk1, hmk2, hmk3, hmk4, hmk5⟩ := hmem mk (memAt_mem hmk)
    constructor
    · intro i lb ub hlb hub
      have hlbeq : (sparse_out (1 - mk.2) (1 - mk.1) rows).interval_lb
          = rows.map (fun row => floor_decimal (max Pmin (floor_decimal row.low 5)) 5) := by
        show ((rows.map (·.low)).map (fun x => floor_decimal x 5)).map
            (fun lb => floor_decimal (max Pmin lb) 5) = _
        simp [List.map_map, Function.comp]
      have hubeq : (sparse_out (1 - mk.2) (1 - mk.1) rows).interval_ub
          = rows.map (fun row => floor_decimal (min 1 (floor_decimal row.upp 5)) 5) := by
        show ((rows.map (·.upp)).map (fun x => floor_decimal x 5)).map
            (fun ub => floor_decimal (min 1 ub) 5) = _
        simp [List.map_map, Function.comp]
      rw [hlbeq] at hlb
      rw [hubeq] at hub
      rw [List.get?_eq_getElem?, List.getElem?_map, ← List.get?_eq_getElem?] at hlb hub
      cases hrow : rows.get? i with
      | none =>
        rw [hrow] at hlb
        exact Option.noConfusion hlb
      | some row =>
        rw [hrow] at hlb hub
        simp only [Option.map_some', Option.some.injEq] at hlb hub
        subst hlb
        subst hub
        obtain ⟨e, hem, hlow, hupp⟩ := sparse_rows_entry hrows hrow
        obtain ⟨he1, he2, he3, he4, he5⟩ := hmem e hem
        rw [hlow, hupp]
        refine ⟨?_, ?_, ?_⟩
        · have h1 : Pmin ≤ floor_decimal (max Pmin (floor_decimal e.1 5)) 5 :=
            floor5_ge_pmin (le_max_left _ _)
          have := Pmin_pos
          linarith
        · apply floor_decimal_mono
          apply le_min
          · exact max_le Pmin_le_one ((floor_decimal_le _ _).trans (he2.trans he3))
          · exact max_le (floor5_ge_pmin he4) (floor_decimal_mono he2 5)
        · exact (floor_decimal_le _ _).trans (min_le_left _ _)
    · have hdlb : (sparse_out (1 - mk.2) (1 - mk.1) rows).deadlock_interval_lb
          = floor_decimal (max Pmin (floor_decimal (1 - mk.2) 5)) 5 := rfl
      have hdub : (sparse_out (1 - mk.2) (1 - mk.1) rows).deadlock_interval_ub
          = floor_decimal (min 1 (floor_decimal (1 - mk.1) 5)) 5 := rfl
      rw [hdlb, hdub]
      refine ⟨?_, ?_, ?_⟩
      · have h1 : Pmin ≤ floor_decimal (max Pmin (floor_decimal (1 - mk.2) 5)) 5 :=
          floor5_ge_pmin (le_max_left _ _)
        have := Pmin_pos
        linarith
      · apply floor_decimal_mono
        apply le_min
        · exact max_le Pmin_le_one ((floor_decimal_le _ _).trans (by linarith))
        · exact max_le (floor5_ge_pmin (by linarith)) (floor_decimal_mono (by linarith) 5)
      · exact (floor_decimal_le _ _).trans (min_le_left _ _)
  · intro inp out hout hε hrowhyp hdl
    obtain ⟨dupE, plow, hd, hp, hdef⟩ := error_some_parts hout
    subst hdef
    obtain ⟨hlen, hget⟩ := mapO_some hp
    obtain ⟨hd1, hd2, hd3⟩ := hdl dupE hd
    constructor
    · intro i lb ub hlb hub
      have hlbeq : (error_out inp (1 - dupE.1) plow).probs_lb
          = plow.map (fun x => max Pmin (floor_decimal x 5)) := rfl
      have hubeq : (error_out inp (1 - dupE.1) plow).probs_ub
          = (counts_rows inp).map (fun row =>
              min 1 (floor_decimal
                (min 1 ((row.cupp : ℚ) / (inp.Nsamples : ℚ) + inp.epsilon)) 5)) := by
        show ((counts_rows inp).map (fun row =>
            min 1 ((row.cupp : ℚ) / (inp.Nsamples : ℚ) + inp.epsilon))).map
            (fun x => min 1 (floor_decimal x 5)) = _
        simp [List.map_map, Function.comp]
      rw [hlbeq] at hlb
      rw [hubeq] at hub
      rw [List.get?_eq_getElem?, List.getElem?_map, ← List.get?_eq_getElem?] at hlb hub
      cases hx : plow.get? i with
      | none =>
        rw [hx] at hlb
        exact Option.noConfusion hlb
      | some x =>
        cases hrow : (counts_rows inp).get? i with
        | none =>
          rw [hrow] at hub
          exact Option.noConfusion hub
        | some row =>
          rw [hx] at hlb
          rw [hrow] at hub
          simp only [Option.map_some', Option.some.injEq] at hlb hub
          subst hlb
          subst hub
          have hpi := hget i row hrow
          rw [hx] at hpi
          cases hm : memAt inp.memory
              (min ((inp.Nsamples : ℤ) - (row.clow : ℤ)) (inp.Nsamples : ℤ)) with
          | none =>
            rw [hm] at hpi
            exact Option.noConfusion hpi
          | some e =>
            rw [hm] at hpi
            simp only [Option.map_some', Option.some.injEq] at hpi
            subst hpi
            have hH := hrowhyp i row e hrow hm
            have hcn : (0:ℚ) ≤ (row.cupp : ℚ) / (inp.Nsamples : ℚ) := by positivity
            have hpminH : Pmin ≤ min 1 ((row.cupp : ℚ) / (inp.Nsamples : ℚ) + inp.epsilon) := by
              refine le_min Pmin_le_one ?_
              linarith
            refine ⟨?_, ?_, ?_⟩
            · have := Pmin_pos
              have h1 : Pmin ≤ max Pmin (floor_decimal e.1 5) := le_max_left _ _
              linarith
            · apply le_min
              · apply max_le Pmin_le_one
                refine (floor_decimal_le _ _).trans (hH.trans ?_)
                exact min_le_left _ _
              · exact max_le (floor5_ge_pmin hpminH) (floor_decimal_mono hH 5)
            · exact min_le_left _ _
    · have hdlb : (error_out inp (1 - dupE.1) plow).deadlock_lb
          = max Pmin (floor_decimal
              (max 0 (((errorCounts inp).absorb_low : ℚ) / (inp.Nsamples : ℚ)
                - inp.epsilon)) 5) := rfl
      have hdub : (error_out inp (1 - dupE.1) plow).deadlock_ub
          = min 1 (floor_decimal (1 - dupE.1) 5) := rfl
      rw [hdlb, hdub]
      refine ⟨?_, ?_, ?_⟩
      · have := Pmin_pos
        have h1 : Pmin ≤ max Pmin (floor_decimal
            (max 0 (((errorCounts inp).absorb_low : ℚ) / (inp.Nsamples : ℚ)
              - inp.epsilon)) 5) := le_max_left _ _
        linarith
      · apply le_min
        · apply max_le Pmin_le_one
          exact (floor_decimal_le _ _).trans (hd3.trans (by linarith))
        · exact max_le (floor5_ge_pmin (by linarith)) (floor_decimal_mono hd3 5)
      · exact min_le_left _ _

/-- Witness for the amended C5 at a concrete sparse run with a table meeting
the amended conditions. -/
theorem C5_witness :
    0 ≤ exC5w_out.deadlock_interval_lb
    ∧ exC5w_out.deadlock_interval_lb ≤ exC5w_out.deadlock_interval_ub
    ∧ exC5w_out.deadlock_interval_ub ≤ 1 :=
  (C5_interval_bounds_in_range.1 exC5w exC5w_out rfl (by
    intro e he
    simp only [exC5w, List.mem_cons, List.not_mem_nil, or_false] at he
    rcases he with rfl | rfl | rfl <;> norm_num [Pmin])).2

end DynAbs
